import Mathlib

/-!
# Verification of the YouTube/Congress.gov record-matching core

A shallow embedding, in Lean 4, of the record-matching logic of the
`hearings` repository: the title normalizers, the `difflib.SequenceMatcher`
similarity ratio, the three scoring variants
(`match_all_youtube_videos.calculate_match_score`,
`match_with_llm.calculate_basic_match_score`,
`scripts/match_with_expanded_index.calculate_match_score`), the per-video
matching loops, the date-window candidate selector, and the decision policy
with external (LLM) adjudication.

Modelling conventions:
* Python floats are modelled as exact rationals (`ℚ`); every constant in the
  scorers is a decimal literal, so no floating-point rounding is relevant to
  the orderings verified here.
* Calendar dates (`YYYY-MM-DD` strings parsed with `strptime`) are modelled
  as day numbers (`Int`); `(a - b).days` becomes integer subtraction.  A
  missing/empty date string is `Option.none`.
* Python's `list.sort(key=..., reverse=True)` is a stable descending sort;
  it is modelled by a stable insertion sort with the same comparison.
* `difflib.SequenceMatcher.ratio` is modelled without the autojunk
  heuristic, which only activates for sequences of length ≥ 200 (titles are
  far shorter).
* Strings are processed as ASCII character lists; `str.lower` is modelled by
  `Char.toLower` (they agree on ASCII).
-/

/-! ## Character and string utilities -/

/-- Python's `\s` character class (ASCII range), as used by `re` and
`str.strip` / `str.split`. -/
def isPySpace (c : Char) : Bool :=
  c = ' ' || c = '\t' || c = '\n' || c = '\x0b' || c = '\x0c' || c = '\r'

/-- Python's regex word character `\w` (ASCII range), used for `\b` word
boundaries. -/
def isWordChar (c : Char) : Bool :=
  ('a' ≤ c && c ≤ 'z') || ('A' ≤ c && c ≤ 'Z') || ('0' ≤ c && c ≤ '9') || c = '_'

/-- `str.lower` on a character list (ASCII). -/
def lowerL (l : List Char) : List Char := l.map Char.toLower

/-- Auxiliary for whitespace collapapse: `prevWs` records whether the
previous character was whitespace (already emitted as a single `' '`). -/
def collapseAux : Bool → List Char → List Char
  | _, [] => []
  | prevWs, c :: rest =>
    if isPySpace c then
      if prevWs then collapseAux true rest else ' ' :: collapseAux true rest
    else c :: collapseAux false rest

/-- `re.sub(r'\s+', ' ', s)`: replace every maximal whitespace run by a
single space. -/
def collapseWS (l : List Char) : List Char := collapseAux false l

/-- `str.strip()`: remove leading and trailing whitespace. -/
def stripL (l : List Char) : List Char :=
  ((l.dropWhile isPySpace).reverse.dropWhile isPySpace).reverse

/-- `re.sub(r'[:\-–—]\s*$', '', s)`: if the maximal trailing whitespace run
is preceded by one of `:`, `-`, `–`, `—`, remove that character and the
trailing whitespace. -/
def stripTrailingPunct (l : List Char) : List Char :=
  let rev := l.reverse
  let ws := rev.takeWhile isPySpace
  let rest := rev.drop ws.length
  match rest with
  | c :: rest' =>
    if c = ':' || c = '-' || c = '–' || c = '—' then rest'.reverse else l
  | [] => l

/-- Case-insensitive comparison of a pattern literal against a prefix of the
text (Python `re.IGNORECASE`). Returns the remaining text on success. -/
def ciStrip : List Char → List Char → Option (List Char)
  | [], rest => some rest
  | _ :: _, [] => none
  | p :: ps, c :: cs =>
    if p.toLower = c.toLower then ciStrip ps cs else none

/-- Python's substring test `sub in s` (case-sensitive; the empty string is
a substring of everything, as in Python). -/
def pyIn (sub s : List Char) : Bool :=
  decide (sub <:+: s)

/-- Auxiliary for `wordCount`: the flag records whether the scan is
currently inside a word. -/
def wordCountAux : Bool → List Char → Nat
  | _, [] => 0
  | inWord, c :: rest =>
    if isPySpace c then wordCountAux false rest
    else (if inWord then 0 else 1) + wordCountAux true rest

/-- Number of pieces of `str.split()` (split on whitespace runs, empty
pieces dropped); only the count is ever used by the sources. -/
def wordCount (l : List Char) : Nat := wordCountAux false l

/-! ## `difflib.SequenceMatcher` (junk-free)

`SequenceMatcher(None, a, b).ratio()` is `2*M/T`, where `T = len(a)+len(b)`
and `M` is the total size of the matching blocks.  The blocks are found by
repeatedly taking the longest matching block of a window (earliest ending
position in `a`, then in `b`, on ties) and recursing on the two sides.
-/

/-- Length of the longest common suffix of `a[alo..i]` and `b[blo..j]`
(characters at positions `i` and `j` included), i.e. the chain length
`j2len[j]` computed by `SequenceMatcher.find_longest_match` at row `i`. -/
def matchLen (a b : List Char) (alo blo : Nat) : Nat → Nat → Nat
  | i, j =>
    if alo ≤ i ∧ blo ≤ j ∧ i < a.length ∧ j < b.length ∧
        a.getD i ' ' = b.getD j ' ' then
      match i, j with
      | 0, _ => 1
      | _ + 1, 0 => 1
      | i + 1, j + 1 => matchLen a b alo blo i j + 1
    else 0

/-- One candidate update of `find_longest_match`: replace the current best
block only on a strictly longer match (hence: first best in scan order). -/
def flmUpd (a b : List Char) (alo blo : Nat) (best : Nat × Nat × Nat)
    (ij : Nat × Nat) : Nat × Nat × Nat :=
  let k := matchLen a b alo blo ij.1 ij.2
  if best.2.2 < k then (ij.1 + 1 - k, ij.2 + 1 - k, k) else best

/-- `find_longest_match(alo, ahi, blo, bhi)` (no junk): scan `i` ascending,
`j` ascending, keeping the first longest block; returns `(i, j, size)`. -/
def findLongestMatch (a b : List Char) (alo ahi blo bhi : Nat) :
    Nat × Nat × Nat :=
  (((List.range' alo (ahi - alo)).flatMap
      (fun i => (List.range' blo (bhi - blo)).map (fun j => (i, j)))).foldl
    (flmUpd a b alo blo) (alo, blo, 0))

/-- Total size of the matching blocks of the window `[alo,ahi) × [blo,bhi)`:
the recursion of `get_matching_blocks`, run with explicit fuel (any fuel
`≥ ahi + bhi` suffices, since every recursive window is strictly smaller). -/
def mbSum (a b : List Char) : Nat → Nat → Nat → Nat → Nat → Nat
  | 0, _, _, _, _ => 0
  | fuel + 1, alo, ahi, blo, bhi =>
    let r := findLongestMatch a b alo ahi blo bhi
    let i := r.1
    let j := r.2.1
    let k := r.2.2
    if k = 0 then 0
    else mbSum a b fuel alo i blo j + k + mbSum a b fuel (i + k) ahi (j + k) bhi

/-- `M`: total number of matched characters between `a` and `b`. -/
def difflibMatches (a b : List Char) : Nat :=
  mbSum a b (a.length + b.length + 1) 0 a.length 0 b.length

/-- `SequenceMatcher(None, a, b).ratio()`, as an exact rational:
`2*M/T`, and `1.0` when both sequences are empty. -/
def smRatio (a b : List Char) : ℚ :=
  let T := a.length + b.length
  if T = 0 then 1 else (2 * (difflibMatches a b : ℚ)) / (T : ℚ)


/-! ## Title normalizer of `match_all_youtube_videos.py` -/

def isDigitC (c : Char) : Bool := '0' ≤ c && c ≤ '9'

/-- Consume the `\s+` of the date-prefix regex: at least one whitespace
character, greedily (the following token is never whitespace, so maximal
munch is exact). -/
def ws1 : List Char → Option (List Char)
  | c :: cs => if isPySpace c then some (cs.dropWhile isPySpace) else none
  | [] => none

/-- The tail `,?\s+\d{4}\s+` of the date-prefix regex (after the day
number).  `,?` can only succeed by consuming a present comma. -/
def afterDay (rest : List Char) : Option (List Char) :=
  let rest1 := match rest with | ',' :: cs => cs | cs => cs
  match ws1 rest1 with
  | none => none
  | some r2 =>
    match r2 with
    | a :: b :: c :: d :: r3 =>
      if isDigitC a && isDigitC b && isDigitC c && isDigitC d then ws1 r3 else none
    | _ => none

/-- `\.?\s+\d{1,2}` then `afterDay`: the optional dot can only succeed by
consuming a present dot; `\d{1,2}` is greedy with backtracking (two digits
first, then one). -/
def parseDateTail (rest : List Char) : Option (List Char) :=
  let rest1 := match rest with | '.' :: cs => cs | cs => cs
  match ws1 rest1 with
  | none => none
  | some r2 =>
    match r2 with
    | d1 :: cs =>
      if isDigitC d1 then
        match cs with
        | d2 :: cs2 => if isDigitC d2 then (afterDay cs2 <|> afterDay cs) else afterDay cs
        | [] => afterDay cs
      else none
    | [] => none

/-- The month alternation of the date-prefix regex, in source order. -/
def monthNames : List String :=
  ["January", "February", "March", "April", "May", "June", "July", "August",
   "September", "October", "November", "December",
   "Jan", "Feb", "Mar", "Apr", "May", "Jun", "Jul", "Aug", "Sep", "Oct",
   "Nov", "Dec"]

/-- Try each month alternative (case-insensitively) followed by the date
tail; the regex is anchored with `^`, so only position 0 is tried. -/
def tryMonths : List String → List Char → Option (List Char)
  | [], _ => none
  | m :: ms, l =>
    match ciStrip m.toList l with
    | some rest =>
      match parseDateTail rest with
      | some r => some r
      | none => tryMonths ms l
    | none => tryMonths ms l

/-- `re.sub(r'^(January|...|Dec)\.?\s+\d{1,2},?\s+\d{4}\s+', '', title,
flags=re.IGNORECASE)`. -/
def removeDatePrefix (l : List Char) : List Char :=
  match tryMonths monthNames l with
  | some r => r
  | none => l

/-- The lazy scan of `re.search(r'\((.*?)\)', title)` from an opening
parenthesis: characters up to the first `')'`, failing on a newline (`.`
does not match `\n`) or end of string. -/
def takeUntilClose : List Char → Option (List Char)
  | [] => none
  | ')' :: _ => some []
  | '\n' :: _ => none
  | c :: rest => (takeUntilClose rest).map (c :: ·)

/-- `re.search(r'\((.*?)\)', title)`: content of the leftmost match. -/
def findParen : List Char → Option (List Char)
  | [] => none
  | '(' :: rest =>
    match takeUntilClose rest with
    | some content => some content
    | none => findParen rest
  | _ :: rest => findParen rest

/-- Try each alternative pattern (case-insensitively) at the current
position; for word-final patterns (`endB`) additionally require a `\b`
after the match.  Returns the matched pattern (for boundary bookkeeping)
and the remaining text. -/
def tryPats (endB : Bool) : List String → List Char → Option (List Char × List Char)
  | [], _ => none
  | p :: ps, l =>
    match ciStrip p.toList l with
    | some rest =>
      let ok := if endB then (match rest with
                               | [] => true
                               | c :: _ => !isWordChar c)
                else true
      if ok then some (p.toList, rest) else tryPats endB ps l
    | none => tryPats endB ps l

/-- `re.sub(r'\b(pat|...)', '', s, flags=re.IGNORECASE)` (and, with `endB`,
a trailing `\b`): left-to-right scan removing every non-overlapping match.
All patterns begin with a word character, so the leading `\b` holds exactly
when the previous character of the *original* string is absent or not a
word character; after a removal the boundary state is the last character of
the removed text (whose word-character status equals that of the pattern's
last character, since case folding preserves it). -/
def reSubPatsAux (pats : List String) (endB : Bool) :
    Nat → Option Char → List Char → List Char
  | 0, _, l => l
  | _ + 1, _, [] => []
  | fuel + 1, prev, c :: cs =>
    let boundaryOK := match prev with | none => true | some p => !isWordChar p
    match (if boundaryOK then tryPats endB pats (c :: cs) else none) with
    | some (pat, rest) => reSubPatsAux pats endB fuel (some (pat.getLastD ' ')) rest
    | none => c :: reSubPatsAux pats endB fuel (some c) cs

/-- Entry point of the scan: every successful match consumes at least one
character (all patterns are nonempty), so `l.length` steps of fuel are
exact. -/
def reSubPats (pats : List String) (endB : Bool) (prev : Option Char)
    (l : List Char) : List Char :=
  reSubPatsAux pats endB l.length prev l

/-- The committee/subcommittee boilerplate removed first by the aggressive
normalization (each alternative ends in a space; no trailing `\b`). -/
def committeeWordPats : List String :=
  ["Health ", "Energy ", "O&I ", "C&T ", "CMT ", "IDC ", "Full Committee ",
   "Committee ", "Subcommittee "]

/-- The procedural words removed second (`\b` on both sides; `Markup` is
deliberately kept). -/
def procWordPats : List String :=
  ["Hearing", "Meeting", "Legislative", "Oversight", "Business"]

/-- `normalize_title` of `match_all_youtube_videos.py`. -/
def normalize_title (title : String) : String :=
  let t1 := removeDatePrefix title.toList
  let parenContent :=
    match findParen t1 with
    | some content => if 2 < wordCount content then content else []
    | none => []
  let aggressive1 := reSubPats committeeWordPats false none t1
  let aggressive2 := reSubPats procWordPats true none aggressive1
  let aggressive := stripL (stripTrailingPunct (collapseWS aggressive2))
  let result :=
    if 5 < aggressive.length ∧
        aggressive ∉ ([[], [':'], ['-'], ['–']] : List (List Char)) then
      aggressive
    else if parenContent ≠ [] then
      parenContent
    else
      stripL (stripTrailingPunct (collapseWS t1))
  (lowerL result).asString


/-! ## Title normalizer of `scripts/match_with_expanded_index.py` -/

/-- The prefix alternation of the expanded-index normalizer, in source
order. -/
def expandedPrefixPats : List String :=
  ["Hearing", "Markup", "Subcommittee", "Committee", "Full Committee"]

/-- Try `(alt):\s*` at the current position (case-insensitive, source
order). -/
def tryExpandedAt (l : List Char) : Option (List Char) :=
  go expandedPrefixPats
where
  go : List String → Option (List Char)
    | [] => none
    | p :: ps =>
      match ciStrip p.toList l with
      | some (':' :: rest) => some (rest.dropWhile isPySpace)
      | _ => go ps

/-- The lazy scan of `re.sub(r'^(.*?)(Hearing|Markup|Subcommittee|Committee|
Full Committee):\s*', '', title, flags=re.IGNORECASE)`: `(.*?)` grows one
(non-newline) character at a time until some alternative followed by a
colon matches. -/
def stripPrefixAux : List Char → Option (List Char)
  | [] => none
  | c :: cs =>
    match tryExpandedAt (c :: cs) with
    | some rest => some rest
    | none => if c = '\n' then none else stripPrefixAux cs

/-- `normalize_title` of `scripts/match_with_expanded_index.py`. -/
def normalize_title_expanded (title : String) : String :=
  let t1 := match stripPrefixAux title.toList with
    | some r => r
    | none => title.toList
  let t2 := collapseWS t1
  (stripL (lowerL t2)).asString


/-! ## Data model

Field conventions: `Option Int` dates are day numbers (`none` = missing or
empty date string); `committeeName = none` models a missing/empty
`committeeName` key; `committees` is the list of committee names of the
`committees` key.  Interpolated values inside reason strings are rendered
from the day-number model (`toString`); the similarity reasons omit the
`:.2f`-rendered number — no logic in the sources inspects these suffixes,
only the fixed prefixes. -/

structure Event where
  eventId : String
  congress : Option Nat
  title : String
  date : Option Int
  etype : String
  committeeName : Option String
  committees : List String
deriving DecidableEq, Repr

structure Video where
  video_id : String
  title : String
  url : String
  exact_date : Option Int
  approximate_date : Option Int
deriving DecidableEq, Repr

/-! ## Stable descending sort (Python `list.sort(key=..., reverse=True)`) -/

/-- Insert `x` (an element occurring *before* every element of the list in
the original order) into an already-sorted-descending list: `x` goes in
front of the first element whose key is not larger, which is exactly the
stable descending order. -/
def insertByScore {α : Type} (key : α → ℚ) (x : α) : List α → List α
  | [] => [x]
  | y :: ys => if key x < key y then y :: insertByScore key x ys else x :: y :: ys

/-- Stable sort, descending by `key`. -/
def sortByScoreDesc {α : Type} (key : α → ℚ) (l : List α) : List α :=
  l.foldr (insertByScore key) []

/-- Python's `max(xs, key=f)`: first element attaining the maximal key. -/
def maxByKey {α : Type} (key : α → ℚ) (x : α) : List α → α
  | [] => x
  | y :: ys => if key x < key y then maxByKey key y ys else maxByKey key x ys

/-! ## Scorer of `match_all_youtube_videos.py` -/

/-- The date component of `calculate_match_score`
(`match_all_youtube_videos.py`, lines 66–95): both score contribution and
reasons. -/
def dateScoreA (ytDate cgDate : Option Int) : ℚ × List String :=
  match ytDate, cgDate with
  | some y, some c =>
    let d := (y - c).natAbs
    if d = 0 then (0.3, ["Exact date match: " ++ toString y])
    else if d ≤ 2 then
      (0.2, ["Date within 2 days: " ++ toString y ++ " vs " ++ toString c])
    else if d ≤ 7 then (0.1, ["Date within a week: " ++ toString d ++ " days apart"])
    else (-0.5, ["Date mismatch: " ++ toString d ++ " days apart"])
  | _, _ => (0, ["Missing date information"])

/-- The `committee` output field: `committeeName or
(committees[0].name-or-default if committees else default)`. -/
def committeeField (e : Event) : String :=
  match e.committeeName with
  | some c => c
  | none => e.committees.headD "House Energy and Commerce"

structure ScoreResultA where
  score : ℚ
  reasons : List String
  congress_title : String
  committee : String
deriving Repr

/-- `calculate_match_score` of `match_all_youtube_videos.py`. -/
def calculate_match_score (v : Video) (e : Event) : ScoreResultA :=
  let ytDate := v.exact_date <|> v.approximate_date
  let dr := dateScoreA ytDate e.date
  let yt_title := normalize_title v.title
  let cg_title := normalize_title e.title
  let ts := smRatio yt_title.toList cg_title.toList
  let titleReasons :=
    if (0.8 : ℚ) < ts then ["High title similarity"]
    else if (0.6 : ℚ) < ts then ["Moderate title similarity"]
    else if (0.4 : ℚ) < ts then ["Low title similarity"]
    else []
  let et := (lowerL e.etype.toList).asString
  let typePair :=
    if et ≠ "" ∧ pyIn et.toList yt_title.toList then
      ((0.1 : ℚ), ["Event type match: " ++ et])
    else (0, [])
  { score := dr.1 + ts * 0.6 + typePair.1
    reasons := dr.2 ++ titleReasons ++ typePair.2
    congress_title := e.title
    committee := committeeField e }

/-- A scored candidate of the main loop: the score dict merged with the
scored event (`{**match_result, 'event': event}`). -/
structure AMatch where
  score : ℚ
  reasons : List String
  congress_title : String
  committee : String
  event : Event
deriving Repr

/-- A scored candidate: the score dict of one event merged with the event
(`{**match_result, 'event': event}`). -/
def aMatchOf (v : Video) (e : Event) : AMatch :=
  let r := calculate_match_score v e
  { score := r.score, reasons := r.reasons, congress_title := r.congress_title,
    committee := r.committee, event := e }

/-- Score every event and sort descending by score (stable), as the main
loop of `match_all_youtube_videos.py` does. -/
def scoreAll (v : Video) (events : List Event) : List AMatch :=
  sortByScoreDesc (fun m => m.score) (events.map (aMatchOf v))

/-- The title similarity recomputed during the same-day re-ranking pass
(`SequenceMatcher` on the normalized titles). -/
def titleSimTo (v : Video) (e : Event) : ℚ :=
  smRatio (normalize_title v.title).toList (normalize_title e.title).toList

/-- The same-day re-ranking pass of the main loop
(`match_all_youtube_videos.py`, lines 200–224): returns `(best_match,
best_score)`. -/
def rerank (v : Video) (sorted : List AMatch) : Option AMatch × ℚ :=
  match sorted with
  | [] => (none, 0)
  | best :: _ =>
    if best.reasons.any (fun r => pyIn "Exact date match".toList r.toList) then
      let sameDay := sorted.filter (fun m =>
        match m.event.date, v.exact_date with
        | some d, some y => decide (d = y)
        | _, _ => false)
      match sameDay with
      | [] => (some best, best.score)
      | s :: ss =>
        let bsd := maxByKey (fun m => titleSimTo v m.event) s ss
        if (0.4 : ℚ) < titleSimTo v bsd.event then (some bsd, bsd.score)
        else (some best, best.score)
    else (some best, best.score)

structure MatchEntryA where
  youtube_id : String
  youtube_title : String
  youtube_url : String
  youtube_date : Option Int
  congress_title : String
  eventId : String
  congress_date : Option Int
  congress_url : Option String
  committee : String
  score : ℚ
  reasons : List String
deriving Repr

structure UnmatchedEntry where
  youtube_id : String
  youtube_title : String
  youtube_date : Option Int
  best_score : ℚ
  best_match : Option String
deriving Repr

/-- The `congress_url` of a `match_all_youtube_videos.py` match entry
(`None` unless both `congress` and `eventId` are truthy). -/
def congressUrlA (e : Event) : Option String :=
  match e.congress with
  | some n =>
    if n ≠ 0 ∧ e.eventId ≠ "" then
      some ("https://www.congress.gov/event/" ++ toString n ++
        "th-congress/house-event/" ++ e.eventId)
    else none
  | none => none

/-- One iteration of the matching loop of `match_all_youtube_videos.py`
(lines 186–253): appends exactly one entry, to `matches` or to
`unmatched`. -/
def stepA (events : List Event) (acc : List MatchEntryA × List UnmatchedEntry)
    (v : Video) : List MatchEntryA × List UnmatchedEntry :=
  let sorted := scoreAll v events
  let r := rerank v sorted
  match r.1 with
  | some m =>
    if (0.45 : ℚ) ≤ r.2 then
      (acc.1 ++ [{ youtube_id := v.video_id, youtube_title := v.title,
                   youtube_url := v.url,
                   youtube_date := v.exact_date <|> v.approximate_date,
                   congress_title := m.congress_title,
                   eventId := m.event.eventId,
                   congress_date := m.event.date,
                   congress_url := congressUrlA m.event,
                   committee := m.committee, score := r.2,
                   reasons := m.reasons }], acc.2)
    else
      (acc.1, acc.2 ++ [{ youtube_id := v.video_id, youtube_title := v.title,
                          youtube_date := v.exact_date <|> v.approximate_date,
                          best_score := r.2,
                          best_match := some m.congress_title }])
  | none =>
    (acc.1, acc.2 ++ [{ youtube_id := v.video_id, youtube_title := v.title,
                        youtube_date := v.exact_date <|> v.approximate_date,
                        best_score := r.2, best_match := none }])

/-- The full matching loop of `match_all_youtube_videos.py`. -/
def runMatchAll (events : List Event) (videos : List Video) :
    List MatchEntryA × List UnmatchedEntry :=
  videos.foldl (stepA events) ([], [])

/-! ## Scorer and decision policy of `match_with_llm.py` /
`scripts/match_with_llm.py` (the two files' matching logic is identical)

The main loop filters to videos carrying a date and builds dicts with a
present `exact_date`, so the videos of this pipeline carry an `Int` date. -/

structure LVideo where
  video_id : String
  title : String
  url : String
  exact_date : Int
  committee_id : String
deriving DecidableEq, Repr

/-- The structured decision of the LLM adjudicator (`MatchDecision` in the
sources); `congress_event_id = none` models JSON `null`. -/
structure MatchDecision where
  congress_event_id : Option String
  confidence : String
  reasoning : String
deriving DecidableEq, Repr

/-- The date component of `calculate_basic_match_score` (no reasons are
kept in this variant). -/
def llmDateScore (ytDate cgDate : Option Int) : ℚ :=
  match ytDate, cgDate with
  | some y, some c =>
    let d := (y - c).natAbs
    if d = 0 then 0.3
    else if d ≤ 2 then 0.2
    else if d ≤ 7 then 0.1
    else -0.5
  | _, _ => 0

/-- `calculate_basic_match_score` of `match_with_llm.py` (titles are
lowercased but *not* normalized in this variant). -/
def calculate_basic_match_score (v : LVideo) (e : Event) : ℚ :=
  let dateComp := llmDateScore (some v.exact_date) e.date
  let yt := lowerL v.title.toList
  let cg := lowerL e.title.toList
  let ts := smRatio yt cg
  let typeComp :=
    if pyIn "markup".toList yt ∧ pyIn "markup".toList cg then (0.1 : ℚ)
    else if pyIn "hearing".toList yt ∧ pyIn "hearing".toList (lowerL e.etype.toList) then 0.1
    else if pyIn "meeting".toList yt ∧ pyIn "meeting".toList (lowerL e.etype.toList) then 0.1
    else 0
  dateComp + ts * 0.6 + typeComp

/-- Score all events and sort descending (stable), as the main loop
does. -/
def scoredEventsL (events : List Event) (v : LVideo) : List (Event × ℚ) :=
  sortByScoreDesc (fun se => se.2)
    (events.map (fun e => (e, calculate_basic_match_score v e)))

/-- The candidate gathering of the ambiguous branch: top 10 by score, kept
when they carry a date within 7 days of the video. -/
def llmCandidates (v : LVideo) (sorted : List (Event × ℚ)) : List Event :=
  (sorted.take 10).filterMap (fun se =>
    match se.1.date with
    | some c => if (v.exact_date - c).natAbs ≤ 7 then some se.1 else none
    | none => none)

structure MatchEntryL where
  youtube_id : String
  youtube_title : String
  youtube_url : String
  youtube_date : Int
  congress_title : String
  eventId : String
  congress_date : Option Int
  congress_url : String
  committee : String
  score : ℚ
  match_method : String
  llm_confidence : Option String
  llm_reasoning : Option String
deriving Repr

structure UnmatchedEntryL where
  youtube_id : String
  youtube_title : String
  youtube_date : Int
  best_score : ℚ
  best_match : Option String
deriving Repr

/-- The f-string `congress_url` of the LLM pipeline (built uncondi-
tionally; a missing congress number renders as Python's `None`). -/
def congressUrlL (e : Event) : String :=
  "https://www.congress.gov/event/" ++
    (match e.congress with | some n => toString n | none => "None") ++
    "th-congress/house-event/" ++ e.eventId

/-- The unmatched record of the LLM pipeline (identical dict in all four
unmatched paths of the source). -/
def mkUnmatchedL (v : LVideo) (sorted : List (Event × ℚ)) (bs : ℚ) :
    UnmatchedEntryL :=
  { youtube_id := v.video_id, youtube_title := v.title,
    youtube_date := v.exact_date, best_score := bs,
    best_match := match sorted with | [] => none | se :: _ => some se.1.title }

/-- A matched record of the LLM pipeline; `method` is `"algorithmic"` or
`"llm_assisted"`, `bs` is always the best (top-of-sort) score. -/
def mkMatchedL (v : LVideo) (e : Event) (bs : ℚ) (method : String)
    (conf reas : Option String) : MatchEntryL :=
  { youtube_id := v.video_id, youtube_title := v.title, youtube_url := v.url,
    youtube_date := v.exact_date, congress_title := e.title,
    eventId := e.eventId, congress_date := e.date,
    congress_url := congressUrlL e,
    committee := e.committeeName.getD "House Energy and Commerce",
    score := bs, match_method := method,
    llm_confidence := conf, llm_reasoning := reas }

/-- One iteration of the matching loop of `match_with_llm.py` (lines
148–260 resp. 211–323): the three-band decision policy with optional LLM
adjudication, producing exactly one entry. -/
def processVideoLlm (adjudicate : LVideo → List Event → Option MatchDecision)
    (events : List Event) (v : LVideo) : MatchEntryL ⊕ UnmatchedEntryL :=
  let sorted := scoredEventsL events v
  match sorted with
  | [] => .inr (mkUnmatchedL v [] 0)
  | top :: _ =>
    let bs := top.2
    if (0.7 : ℚ) ≤ bs then
      .inl (mkMatchedL v top.1 bs "algorithmic" none none)
    else if (0.4 : ℚ) ≤ bs then
      match llmCandidates v sorted with
      | [] => .inr (mkUnmatchedL v sorted bs)
      | c :: cs =>
        match adjudicate v (c :: cs) with
        | some r =>
          match r.congress_event_id with
          | some id =>
            if id = "" then .inr (mkUnmatchedL v sorted bs)
            else
              match (c :: cs).find? (fun e => e.eventId = id) with
              | some me =>
                .inl (mkMatchedL v me bs "llm_assisted" (some r.confidence)
                  (some r.reasoning))
              | none => .inr (mkUnmatchedL v sorted bs)
          | none => .inr (mkUnmatchedL v sorted bs)
        | none => .inr (mkUnmatchedL v sorted bs)
    else .inr (mkUnmatchedL v sorted bs)

/-- One iteration of the main loop: route the produced entry to `matches`
or `unmatched`. -/
def stepL (adjudicate : LVideo → List Event → Option MatchDecision)
    (events : List Event) (acc : List MatchEntryL × List UnmatchedEntryL)
    (v : LVideo) : List MatchEntryL × List UnmatchedEntryL :=
  match processVideoLlm adjudicate events v with
  | .inl m => (acc.1 ++ [m], acc.2)
  | .inr u => (acc.1, acc.2 ++ [u])

/-- The full matching loop of `match_with_llm.py`. -/
def runLlm (adjudicate : LVideo → List Event → Option MatchDecision)
    (events : List Event) (videos : List LVideo) :
    List MatchEntryL × List UnmatchedEntryL :=
  videos.foldl (stepL adjudicate events) ([], [])

/-! ## Scorer and candidate selector of
`scripts/match_with_expanded_index.py` -/

/-- A YouTube live stream of the expanded pipeline: the date is
`liveStreamingDetails.actualStartTime[:10]`, when present. -/
structure XVideo where
  id : String
  title : String
  actualStartTime : Option Int
deriving DecidableEq, Repr

/-- The date component of the expanded-index `calculate_match_score`
(lines 30–54): note the asymmetric credit (YouTube-after-Congress is
favoured) and the *absence* of any negative branch; a missing YouTube date
with a present Congress date earns 0.05. -/
def expandedDateScore (ytDate cgDate : Option Int) : ℚ × List String :=
  match ytDate, cgDate with
  | some y, some c =>
    if y = c then (0.4, ["Exact date match: " ++ toString y])
    else
      let diff := y - c
      if 0 ≤ diff ∧ diff ≤ 2 then
        (0.3, ["YouTube " ++ toString diff ++ " day(s) after Congress: " ++
          toString y ++ " vs " ++ toString c])
      else if -1 ≤ diff ∧ diff < 0 then
        (0.2, ["YouTube 1 day before Congress: " ++ toString y ++ " vs " ++
          toString c])
      else if diff.natAbs ≤ 3 then
        (0.1, ["Date within 3 days: " ++ toString y ++ " vs " ++ toString c])
      else (0, [])
  | none, some _ => (0.05, ["No YouTube date available"])
  | _, none => (0, [])

/-- The `committee_keywords` table, in source (dict-insertion) order. -/
def committee_keywords : List (String × List String) :=
  [("health", ["health", "hhs", "fda", "cdc", "nih"]),
   ("energy", ["energy", "ferc", "nuclear", "pipeline"]),
   ("oversight", ["oversight", "o&i", "investigation"]),
   ("communications", ["communications", "technology", "tech", "ftc"]),
   ("commerce", ["commerce", "manufacturing", "trade"]),
   ("environment", ["environment", "epa", "climate"])]

/-- The committee-keyword component (10% block): for each table key
contained in the committee name, the first keyword found in the lowercased
YouTube title adds 0.02 (the inner `break`). -/
def committeeKwScore (ytLower commName : List Char) : ℚ × List String :=
  committee_keywords.foldl (fun acc kk =>
    if pyIn kk.1.toList commName then
      match kk.2.find? (fun kw => pyIn kw.toList ytLower) with
      | some kw => (acc.1 + 0.02, acc.2 ++ ["Committee keyword match: " ++ kw])
      | none => acc
    else acc) (0, [])

structure ScoreResultX where
  score : ℚ
  reasons : List String
  eventId : String
  congress_title : String
  congress_date : Option Int
  youtube_title : String
  youtube_date : Option Int
  committee : String
deriving Repr

/-- `calculate_match_score` of `scripts/match_with_expanded_index.py`. -/
def calculate_match_score_expanded (v : XVideo) (e : Event) : ScoreResultX :=
  let dr := expandedDateScore v.actualStartTime e.date
  let yt_title := normalize_title_expanded v.title
  let cg_title := normalize_title_expanded e.title
  let ts := smRatio yt_title.toList cg_title.toList
  let titleReasons :=
    if (0.8 : ℚ) < ts then ["High title similarity"]
    else if (0.6 : ℚ) < ts then ["Moderate title similarity"]
    else if (0.4 : ℚ) < ts then ["Low title similarity"]
    else []
  let ytLower := lowerL v.title.toList
  let commName := lowerL ((e.committeeName.getD "").toList)
  let ck := committeeKwScore ytLower commName
  let et := lowerL e.etype.toList
  let typePair :=
    if pyIn et ytLower then ((0.05 : ℚ), ["Event type match: " ++ et.asString])
    else (0, [])
  { score := dr.1 + ts * 0.45 + ck.1 + typePair.1
    reasons := dr.2 ++ titleReasons ++ ck.2 ++ typePair.2
    eventId := e.eventId, congress_title := e.title, congress_date := e.date,
    youtube_title := v.title, youtube_date := v.actualStartTime,
    committee := e.committeeName.getD "Unknown" }

/-- Add an event under its date key: append to an existing bucket, or
append a fresh bucket at the end (Python dict insertion order). -/
def addToIndex (idx : List (Int × List Event)) (d : Int) (e : Event) :
    List (Int × List Event) :=
  match idx with
  | [] => [(d, [e])]
  | (d', es) :: rest =>
    if d' = d then (d', es ++ [e]) :: rest else (d', es) :: addToIndex rest d e

/-- The date→events index built once per run (lines 127–135). -/
def buildDateIndex (events : List Event) : List (Int × List Event) :=
  events.foldl (fun idx e =>
    match e.date with
    | some d => addToIndex idx d e
    | none => idx) []

/-- `date_index[d]` when present, else the empty list (the source guards
with `in date_index` / `in date_index` membership tests). -/
def lookupIndex (idx : List (Int × List Event)) (d : Int) : List Event :=
  match idx.find? (fun p => p.1 = d) with
  | some p => p.2
  | none => []

/-- The candidate selector of the expanded pipeline (lines 144–164): exact
date, then offsets −3, −2, −1, +1 applied to the video date; full event
set when the video has no date or the window is empty. -/
def select_candidates (idx : List (Int × List Event)) (allEvents : List Event)
    (ytDate : Option Int) : List Event :=
  let c :=
    match ytDate with
    | some y =>
      lookupIndex idx y ++ lookupIndex idx (y + -3) ++ lookupIndex idx (y + -2) ++
        lookupIndex idx (y + -1) ++ lookupIndex idx (y + 1)
    | none => []
  match c with
  | [] => allEvents
  | _ :: _ => c

/-- The events whose dates fall in the window `[video date − 3, video date
+ 1]`: the set the claim says the selector returns. -/
def dateWindowFilter (events : List Event) (y : Int) : List Event :=
  events.filter (fun e =>
    match e.date with
    | some d => decide (y - 3 ≤ d ∧ d ≤ y + 1)
    | none => false)

/-! ## Lemmas about the stable sort and `max(..., key=...)` -/

theorem insertByScore_perm {α : Type} (key : α → ℚ) (x : α) (l : List α) :
    (insertByScore key x l).Perm (x :: l) := by
  induction l with
  | nil => simp [insertByScore]
  | cons y ys ih =>
    simp only [insertByScore]
    split
    · exact ((ih.cons y).trans (List.Perm.swap x y ys))
    · exact List.Perm.refl _

theorem sortByScoreDesc_perm {α : Type} (key : α → ℚ) (l : List α) :
    (sortByScoreDesc key l).Perm l := by
  induction l with
  | nil => simp [sortByScoreDesc]
  | cons x xs ih =>
    simpa [sortByScoreDesc] using
      (insertByScore_perm key x (sortByScoreDesc key xs)).trans (ih.cons x)

/-- Descending sortedness by key. -/
def SortedDescBy {α : Type} (key : α → ℚ) (l : List α) : Prop :=
  List.Pairwise (fun a b => key b ≤ key a) l

theorem insertByScore_sorted {α : Type} (key : α → ℚ) (x : α) (l : List α)
    (h : SortedDescBy key l) : SortedDescBy key (insertByScore key x l) := by
  induction l with
  | nil => simp [insertByScore, SortedDescBy]
  | cons y ys ih =>
    simp only [insertByScore]
    rcases List.pairwise_cons.mp h with ⟨hy, hys⟩
    split
    · rename_i hxy
      refine List.pairwise_cons.mpr ⟨?_, ih hys⟩
      intro b hb
      rcases List.mem_cons.mp ((insertByScore_perm key x ys).mem_iff.mp hb) with
        rfl | hbys
      · exact le_of_lt hxy
      · exact hy b hbys
    · rename_i hxy
      push_neg at hxy
      refine List.pairwise_cons.mpr ⟨?_, List.pairwise_cons.mpr ⟨hy, hys⟩⟩
      intro b hb
      rcases List.mem_cons.mp hb with rfl | hbys
      · exact hxy
      · exact le_trans (hy b hbys) hxy

theorem sortByScoreDesc_sorted {α : Type} (key : α → ℚ) (l : List α) :
    SortedDescBy key (sortByScoreDesc key l) := by
  induction l with
  | nil => simp [sortByScoreDesc, SortedDescBy]
  | cons x xs ih => exact insertByScore_sorted key x _ ih

/-- The head of the stable descending sort attains the maximal key. -/
theorem sortByScoreDesc_head_max {α : Type} (key : α → ℚ) (l : List α)
    (top : α) (rest : List α) (h : sortByScoreDesc key l = top :: rest) :
    ∀ a ∈ l, key a ≤ key top := by
  intro a ha
  have hmem : a ∈ top :: rest := h ▸ ((sortByScoreDesc_perm key l).symm.mem_iff.mp ha)
  rcases List.mem_cons.mp hmem with rfl | hrest
  · exact le_refl _
  · have hs := sortByScoreDesc_sorted key l
    rw [h] at hs
    exact (List.pairwise_cons.mp hs).1 a hrest

/-- The head of the sort is an element of the list. -/
theorem sortByScoreDesc_head_mem {α : Type} (key : α → ℚ) (l : List α)
    (top : α) (rest : List α) (h : sortByScoreDesc key l = top :: rest) :
    top ∈ l := by
  have : top ∈ top :: rest := List.mem_cons_self _ _
  exact (sortByScoreDesc_perm key l).mem_iff.mp (h ▸ this)

theorem maxByKey_mem {α : Type} (key : α → ℚ) (x : α) (l : List α) :
    maxByKey key x l ∈ x :: l := by
  induction l generalizing x with
  | nil => simp [maxByKey]
  | cons y ys ih =>
    simp only [maxByKey]
    split
    · rcases List.mem_cons.mp (ih y) with h | h <;> simp [h]
    · rcases List.mem_cons.mp (ih x) with h | h <;> simp [h]

theorem maxByKey_max {α : Type} (key : α → ℚ) (x : α) (l : List α) :
    ∀ y ∈ x :: l, key y ≤ key (maxByKey key x l) := by
  induction l generalizing x with
  | nil =>
    intro y hy
    rcases List.mem_cons.mp hy with rfl | h
    · simp [maxByKey]
    · simp at h
  | cons z zs ih =>
    intro y hy
    simp only [maxByKey]
    split
    · rename_i hlt
      rcases List.mem_cons.mp hy with rfl | hy'
      · exact le_trans (le_of_lt hlt) (ih z z (List.mem_cons_self _ _))
      · exact ih z y hy'
    · rename_i hge
      push_neg at hge
      rcases List.mem_cons.mp hy with rfl | hy'
      · exact ih y y (List.mem_cons_self _ _)
      · rcases List.mem_cons.mp hy' with rfl | hy''
        · exact le_trans hge (ih x x (List.mem_cons_self _ _))
        · exact ih x y (List.mem_cons.mpr (Or.inr hy''))

/-! ## C1 infrastructure: one output entry per input video -/

/-- Moving a just-appended element across the second list is a
permutation. -/
theorem append_singleton_perm {α : Type} (l1 l2 : List α) (x : α) :
    ((l1 ++ [x]) ++ l2).Perm ((l1 ++ l2) ++ [x]) := by
  have h1 : (l1 ++ [x]) ++ l2 = l1 ++ ([x] ++ l2) := by simp
  have h2 : (l1 ++ l2) ++ [x] = l1 ++ (l2 ++ [x]) := by simp
  rw [h1, h2]
  exact List.Perm.append_left _ List.perm_append_comm

/-- Whatever branch is taken, the single entry produced by `stepA` carries
the processed video's id, appended to exactly one of the two lists. -/
theorem stepA_ids (events : List Event) (acc : List MatchEntryA × List UnmatchedEntry)
    (v : Video) :
    ((stepA events acc v).1.map (fun m => m.youtube_id) ++
      (stepA events acc v).2.map (fun u => u.youtube_id)).Perm
      ((acc.1.map (fun m => m.youtube_id) ++
        acc.2.map (fun u => u.youtube_id)) ++ [v.video_id]) := by
  simp only [stepA]
  rcases h : rerank v (scoreAll v events) with ⟨bm, bs⟩
  cases bm with
  | none =>
    simp only [List.map_append, List.map, List.append_assoc]
    exact List.Perm.refl _
  | some m =>
    dsimp only
    by_cases hbs : (0.45 : ℚ) ≤ bs
    · rw [if_pos hbs]
      simp only [List.map_append, List.map]
      exact append_singleton_perm _ _ _
    · rw [if_neg hbs]
      simp only [List.map_append, List.map, List.append_assoc]
      exact List.Perm.refl _

/-- Every matched entry produced by `processVideoLlm` carries the processed
video's id. -/
theorem processVideoLlm_inl_id (adj : LVideo → List Event → Option MatchDecision)
    (events : List Event) (v : LVideo) (m : MatchEntryL)
    (h : processVideoLlm adj events v = .inl m) : m.youtube_id = v.video_id := by
  simp only [processVideoLlm] at h
  repeat' split at h
  all_goals first
    | (cases h; rfl)
    | simp_all [mkMatchedL, mkUnmatchedL]

/-- Every unmatched entry produced by `processVideoLlm` carries the
processed video's id. -/
theorem processVideoLlm_inr_id (adj : LVideo → List Event → Option MatchDecision)
    (events : List Event) (v : LVideo) (u : UnmatchedEntryL)
    (h : processVideoLlm adj events v = .inr u) : u.youtube_id = v.video_id := by
  simp only [processVideoLlm] at h
  repeat' split at h
  all_goals first
    | (cases h; rfl)
    | simp_all [mkMatchedL, mkUnmatchedL]

/-- The LLM-pipeline analogue of `stepA_ids`. -/
theorem stepL_ids (adj : LVideo → List Event → Option MatchDecision)
    (events : List Event) (acc : List MatchEntryL × List UnmatchedEntryL)
    (v : LVideo) :
    ((stepL adj events acc v).1.map (fun m => m.youtube_id) ++
      (stepL adj events acc v).2.map (fun u => u.youtube_id)).Perm
      ((acc.1.map (fun m => m.youtube_id) ++
        acc.2.map (fun u => u.youtube_id)) ++ [v.video_id]) := by
  simp only [stepL]
  cases hp : processVideoLlm adj events v with
  | inl m =>
    have hid := processVideoLlm_inl_id adj events v m hp
    simp only [List.map_append, List.map, hid]
    exact append_singleton_perm _ _ _
  | inr u =>
    have hid := processVideoLlm_inr_id adj events v u hp
    simp only [List.map_append, List.map, hid, List.append_assoc]
    exact List.Perm.refl _

/-- Folding the match_all step preserves the id multiset invariant. -/
theorem runA_aux (events : List Event) (videos : List Video) :
    ∀ acc : List MatchEntryA × List UnmatchedEntry,
    ((videos.foldl (stepA events) acc).1.map (fun m => m.youtube_id) ++
      (videos.foldl (stepA events) acc).2.map (fun u => u.youtube_id)).Perm
      ((acc.1.map (fun m => m.youtube_id) ++
        acc.2.map (fun u => u.youtube_id)) ++ videos.map (fun v => v.video_id)) := by
  induction videos with
  | nil => intro acc; simp
  | cons v vs ih =>
    intro acc
    have h1 := ih (stepA events acc v)
    have h2 := (stepA_ids events acc v).append_right (vs.map (fun v => v.video_id))
    simp only [List.foldl_cons]
    refine (h1.trans (h2.trans ?_))
    simp [List.append_assoc]

/-- Folding the LLM step preserves the id multiset invariant. -/
theorem runL_aux (adj : LVideo → List Event → Option MatchDecision)
    (events : List Event) (videos : List LVideo) :
    ∀ acc : List MatchEntryL × List UnmatchedEntryL,
    ((videos.foldl (stepL adj events) acc).1.map (fun m => m.youtube_id) ++
      (videos.foldl (stepL adj events) acc).2.map (fun u => u.youtube_id)).Perm
      ((acc.1.map (fun m => m.youtube_id) ++
        acc.2.map (fun u => u.youtube_id)) ++ videos.map (fun v => v.video_id)) := by
  induction videos with
  | nil => intro acc; simp
  | cons v vs ih =>
    intro acc
    have h1 := ih (stepL adj events acc v)
    have h2 := (stepL_ids adj events acc v).append_right (vs.map (fun v => v.video_id))
    simp only [List.foldl_cons]
    refine (h1.trans (h2.trans ?_))
    simp [List.append_assoc]

/-- C1.  For every run of the matcher (both the `match_all_youtube_videos`
loop and the `match_with_llm` loop, under any adjudicator), each input
video produces exactly one output entry, appended either to the matches
list or to the unmatched list: the multiset of youtube ids of
`matches ++ unmatched` equals the multiset of input video ids, and in
particular `|matches| + |unmatched| = |inputs|` — no duplicates, no
omissions, no video in both lists. -/
theorem C1_one_entry_per_video (events : List Event) (videos : List Video)
    (adj : LVideo → List Event → Option MatchDecision) (eventsL : List Event)
    (videosL : List LVideo) :
    (((runMatchAll events videos).1.map (fun m => m.youtube_id) ++
        (runMatchAll events videos).2.map (fun u => u.youtube_id)).Perm
        (videos.map (fun v => v.video_id)) ∧
      (runMatchAll events videos).1.length + (runMatchAll events videos).2.length
        = videos.length) ∧
    (((runLlm adj eventsL videosL).1.map (fun m => m.youtube_id) ++
        (runLlm adj eventsL videosL).2.map (fun u => u.youtube_id)).Perm
        (videosL.map (fun v => v.video_id)) ∧
      (runLlm adj eventsL videosL).1.length + (runLlm adj eventsL videosL).2.length
        = videosL.length) := by
  have hA : ((runMatchAll events videos).1.map (fun m => m.youtube_id) ++
      (runMatchAll events videos).2.map (fun u => u.youtube_id)).Perm
      (videos.map (fun v => v.video_id)) := by
    simpa [runMatchAll] using runA_aux events videos ([], [])
  have hL : ((runLlm adj eventsL videosL).1.map (fun m => m.youtube_id) ++
      (runLlm adj eventsL videosL).2.map (fun u => u.youtube_id)).Perm
      (videosL.map (fun v => v.video_id)) := by
    simpa [runLlm] using runL_aux adj eventsL videosL ([], [])
  refine ⟨⟨hA, ?_⟩, ⟨hL, ?_⟩⟩
  · have := hA.length_eq
    simpa using this
  · have := hL.length_eq
    simpa using this

/-! ## C3: the beyond-threshold date penalty -/

/-- C3 (amended).  In the `match_all_youtube_videos` scorer and the
`match_with_llm` scorer, when both sides carry dates and the absolute day
difference exceeds 7, the date component is exactly −0.5 — a strictly
negative contribution; the `match_with_expanded_index` scorer, however,
contributes exactly 0 (no penalty) beyond its ±3-day window. -/
theorem C3_date_penalty_beyond_week (y c : Int) (h : 7 < (y - c).natAbs) :
    (dateScoreA (some y) (some c)).1 = -0.5 ∧
    (dateScoreA (some y) (some c)).1 < 0 ∧
    llmDateScore (some y) (some c) = -0.5 ∧
    (expandedDateScore (some y) (some c)).1 = 0 := by
  have hd0 : ¬((y - c).natAbs = 0) := by omega
  have hd2 : ¬((y - c).natAbs ≤ 2) := by omega
  have hd7 : ¬((y - c).natAbs ≤ 7) := by omega
  have hyc : ¬(y = c) := by omega
  have he1 : ¬(0 ≤ y - c ∧ y - c ≤ 2) := by omega
  have he2 : ¬(-1 ≤ y - c ∧ y - c < 0) := by omega
  have he3 : ¬((y - c).natAbs ≤ 3) := by omega
  refine ⟨?_, ?_, ?_, ?_⟩
  · simp [dateScoreA, hd0, hd2, hd7]
  · simp only [dateScoreA, hd0, hd2, hd7, if_false, if_neg]
    norm_num
  · simp [llmDateScore, hd0, hd2, hd7]
  · simp only [expandedDateScore, if_neg hyc]
    rw [if_neg (by omega), if_neg (by omega), if_neg (by omega)]

/-- C3 witness: at dates 10 days apart the match_all/llm date component is
−0.5 < 0 and the expanded-index date component is 0. -/
theorem C3_date_penalty_beyond_week_witness :
    (dateScoreA (some 0) (some 10)).1 < 0 ∧
    (expandedDateScore (some 0) (some 10)).1 = 0 := by
  have h := C3_date_penalty_beyond_week 0 10 (by decide)
  exact ⟨h.2.1, h.2.2.2⟩

/-- C3 counterexample.  The claim quantifies over the repository's scorers,
including `scripts/match_with_expanded_index.py` (cited lines 30–50): for a
video dated day 0 and an event dated day 10 — 10 days apart, beyond the
threshold — that scorer's date component is exactly 0, and its whole score
for such a pair (distinct titles, no keyword/type overlap) is 0, not a
strictly negative contribution. -/
theorem C3_counterexample :
    ((0 : Int) - 10).natAbs = 10 ∧
    (expandedDateScore (some 0) (some 10)).1 = 0 ∧
    ¬((expandedDateScore (some 0) (some 10)).1 < 0) ∧
    (calculate_match_score_expanded ⟨"v1", "aaa", some 0⟩
        ⟨"E1", none, "zzz", some 10, "q", none, []⟩).score = 0 := by
  have hr : difflibMatches ['a', 'a', 'a'] ['z', 'z', 'z'] = 0 := by decide
  have hn1 : normalize_title_expanded "aaa" = "aaa" := by decide
  have hn2 : normalize_title_expanded "zzz" = "zzz" := by decide
  refine ⟨by decide, ?_, ?_, ?_⟩
  · simp [expandedDateScore]
  · simp [expandedDateScore]
  · simp [calculate_match_score_expanded, expandedDateScore, hn1, hn2, smRatio,
      hr, committeeKwScore, committee_keywords, pyIn, lowerL,
      show ¬(['q'] <:+: ['a', 'a', 'a']) from by decide]

/-! ## C6: missing-date handling -/

/-- C6 (amended).  In the `match_all_youtube_videos` scorer a missing date
on either side contributes exactly zero and records the reason
`"Missing date information"`.  In the `match_with_expanded_index` scorer,
however, a missing YouTube date with a present Congress date contributes
+0.05 with reason `"No YouTube date available"`, and a missing Congress
date contributes zero with no date reason at all. -/
theorem C6_missing_date (v : Video) (e : Event)
    (h : (v.exact_date <|> v.approximate_date) = none ∨ e.date = none) :
    (dateScoreA (v.exact_date <|> v.approximate_date) e.date).1 = 0 ∧
    "Missing date information" ∈ (calculate_match_score v e).reasons ∧
    (∀ c : Int, expandedDateScore none (some c) = (0.05, ["No YouTube date available"])) ∧
    (∀ yd : Option Int, expandedDateScore yd none = (0, [])) := by
  have hdr : dateScoreA (v.exact_date <|> v.approximate_date) e.date
      = (0, ["Missing date information"]) := by
    rcases h with h | h
    · rw [h]; cases e.date <;> rfl
    · rw [h]; cases (v.exact_date <|> v.approximate_date) <;> rfl
  refine ⟨by rw [hdr], ?_, fun c => rfl, fun yd => by cases yd <;> rfl⟩
  simp [calculate_match_score, hdr]

/-- C6 witness: a video with no dates against an event dated day 0. -/
theorem C6_missing_date_witness :
    (dateScoreA none (some 0)).1 = 0 ∧
    "Missing date information" ∈
      (calculate_match_score ⟨"v", "t", "u", none, none⟩
        ⟨"E", none, "t2", some 0, "", none, []⟩).reasons := by
  have h := C6_missing_date ⟨"v", "t", "u", none, none⟩
    ⟨"E", none, "t2", some 0, "", none, []⟩ (Or.inl rfl)
  exact ⟨h.1, h.2.1⟩

/-- C6 counterexample.  The claim also covers the
`match_with_expanded_index` scorer (cited lines 51–54): for a video with no
date against an event dated day 0, that scorer's date component is +0.05 —
not zero — and the recorded reason is `"No YouTube date available"`, not
`"missing date information"`; the full score of such a pair (disjoint
titles, no keyword/type overlap) is 0.05. -/
theorem C6_counterexample :
    (expandedDateScore none (some 0)).1 = 0.05 ∧
    ¬((expandedDateScore none (some 0)).1 = 0) ∧
    (expandedDateScore none (some 0)).2 = ["No YouTube date available"] ∧
    "Missing date information" ∉
      (calculate_match_score_expanded ⟨"v1", "aaa", none⟩
        ⟨"E1", none, "zzz", some 0, "q", none, []⟩).reasons ∧
    (calculate_match_score_expanded ⟨"v1", "aaa", none⟩
        ⟨"E1", none, "zzz", some 0, "q", none, []⟩).score = 0.05 := by
  have hr : difflibMatches ['a', 'a', 'a'] ['z', 'z', 'z'] = 0 := by decide
  have hn1 : normalize_title_expanded "aaa" = "aaa" := by decide
  have hn2 : normalize_title_expanded "zzz" = "zzz" := by decide
  refine ⟨by norm_num [expandedDateScore], by norm_num [expandedDateScore],
    by simp [expandedDateScore], ?_, ?_⟩
  · simp [calculate_match_score_expanded, expandedDateScore, hn1, hn2, smRatio,
      hr, committeeKwScore, committee_keywords, pyIn, lowerL,
      show ¬(['q'] <:+: ['a', 'a', 'a']) from by decide]
    norm_num
  · simp [calculate_match_score_expanded, expandedDateScore, hn1, hn2, smRatio,
      hr, committeeKwScore, committee_keywords, pyIn, lowerL,
      show ¬(['q'] <:+: ['a', 'a', 'a']) from by decide]

/-! ## C4: monotone date decay -/

/-- The match_all date tier is antitone in the absolute day distance. -/
theorem dateScoreA_mono (y d1 d2 : Int)
    (h : (y - d1).natAbs ≤ (y - d2).natAbs) :
    (dateScoreA (some y) (some d2)).1 ≤ (dateScoreA (some y) (some d1)).1 := by
  simp only [dateScoreA]
  split_ifs <;> (try norm_num) <;> omega

/-- C4 (amended).  In the `match_all_youtube_videos` scorer, for a dated
video and two events with identical titles *and identical event types*,
the event at smaller-or-equal absolute day distance scores at least as
high.  (The restriction to equal types is necessary: the 0.1 type bonus
can otherwise invert the order; and the claim fails outright for the
`match_with_expanded_index` scorer, whose date credit is asymmetric.) -/
theorem C4_monotone_date_decay (v : Video) (e1 e2 : Event)
    (ht : e1.title = e2.title) (hty : e1.etype = e2.etype)
    (y d1 d2 : Int)
    (hy : (v.exact_date <|> v.approximate_date) = some y)
    (h1 : e1.date = some d1) (h2 : e2.date = some d2)
    (hcloser : (y - d1).natAbs ≤ (y - d2).natAbs) :
    (calculate_match_score v e2).score ≤ (calculate_match_score v e1).score := by
  have hm := dateScoreA_mono y d1 d2 hcloser
  simp only [calculate_match_score, ht, hty, hy, h1, h2]
  exact add_le_add_right (add_le_add_right hm _) _

/-- C4 witness: identical titles and types, distances 1 and 5 days. -/
theorem C4_monotone_date_decay_witness :
    (calculate_match_score ⟨"v", "aaa", "u", some 0, none⟩
        ⟨"E2", none, "aaa", some 5, "", none, []⟩).score ≤
      (calculate_match_score ⟨"v", "aaa", "u", some 0, none⟩
        ⟨"E1", none, "aaa", some 1, "", none, []⟩).score :=
  C4_monotone_date_decay ⟨"v", "aaa", "u", some 0, none⟩
    ⟨"E1", none, "aaa", some 1, "", none, []⟩
    ⟨"E2", none, "aaa", some 5, "", none, []⟩
    rfl rfl 0 1 5 rfl rfl rfl (by decide)

/-- C4 counterexample.  The claim also cites the
`match_with_expanded_index` scorer: for a video dated day 10 and two events
that are identical except for their dates — day 11 (1 day away) and day 8
(2 days away) — the closer event scores 0.65 and the farther one 0.75,
because that scorer credits a YouTube date after the Congress date (+0.3
for a 2-day lag) more than one before it (+0.2 for a 1-day lead). -/
theorem C4_counterexample :
    ((10 : Int) - 11).natAbs ≤ ((10 : Int) - 8).natAbs ∧
    (calculate_match_score_expanded ⟨"v1", "aaa", some 10⟩
        ⟨"E1", none, "aaa", some 11, "q", none, []⟩).score = 0.65 ∧
    (calculate_match_score_expanded ⟨"v1", "aaa", some 10⟩
        ⟨"E2", none, "aaa", some 8, "q", none, []⟩).score = 0.75 ∧
    ¬((calculate_match_score_expanded ⟨"v1", "aaa", some 10⟩
        ⟨"E2", none, "aaa", some 8, "q", none, []⟩).score ≤
      (calculate_match_score_expanded ⟨"v1", "aaa", some 10⟩
        ⟨"E1", none, "aaa", some 11, "q", none, []⟩).score) := by
  have hr : difflibMatches ['a', 'a', 'a'] ['a', 'a', 'a'] = 3 := by decide
  have hn1 : normalize_title_expanded "aaa" = "aaa" := by decide
  have h1 : (calculate_match_score_expanded ⟨"v1", "aaa", some 10⟩
      ⟨"E1", none, "aaa", some 11, "q", none, []⟩).score = 0.65 := by
    simp [calculate_match_score_expanded, expandedDateScore, hn1, smRatio, hr,
      committeeKwScore, committee_keywords, pyIn, lowerL,
      show ¬(['q'] <:+: ['a', 'a', 'a']) from by decide]
    norm_num
  have h2 : (calculate_match_score_expanded ⟨"v1", "aaa", some 10⟩
      ⟨"E2", none, "aaa", some 8, "q", none, []⟩).score = 0.75 := by
    simp [calculate_match_score_expanded, expandedDateScore, hn1, smRatio, hr,
      committeeKwScore, committee_keywords, pyIn, lowerL,
      show ¬(['q'] <:+: ['a', 'a', 'a']) from by decide]
    norm_num
  refine ⟨by decide, h1, h2, ?_⟩
  rw [h1, h2]
  norm_num

/-! ## C7 infrastructure: fixed points of the normalization steps -/

theorem char_toNat_ofNat (n : Nat) (h : n < 55296) : (Char.ofNat n).toNat = n := by
  unfold Char.ofNat
  split
  · rfl
  · rename_i hc
    exact absurd (Or.inl h : Nat.isValidChar n) hc

theorem char_eq_iff_toNat (a b : Char) : a = b ↔ a.toNat = b.toNat := by
  constructor
  · intro h; rw [h]
  · intro h; exact Char.ext (UInt32.ext h)

/-- `str.lower` (ASCII) is idempotent characterwise. -/
theorem toLower_toLower (c : Char) : c.toLower.toLower = c.toLower := by
  by_cases h : c.toNat ≥ 65 ∧ c.toNat ≤ 90
  · have ht := char_toNat_ofNat (c.toNat + 32) (by omega)
    simp only [Char.toLower, if_pos h]
    rw [if_neg (by rw [ht]; omega)]
  · simp only [Char.toLower, if_neg h]

/-- Characters at or above code point 65 are not Python whitespace. -/
theorem isPySpace_eq_false_of_ge (c : Char) (h : 65 ≤ c.toNat) :
    isPySpace c = false := by
  simp only [isPySpace, Bool.or_eq_false_iff, decide_eq_false_iff_not]
  refine ⟨⟨⟨⟨⟨?_, ?_⟩, ?_⟩, ?_⟩, ?_⟩, ?_⟩ <;>
    · intro he
      simp [char_eq_iff_toNat] at he
      omega

/-- Lowercasing does not change whitespace-ness. -/
theorem isPySpace_toLower (c : Char) : isPySpace c.toLower = isPySpace c := by
  by_cases h : c.toNat ≥ 65 ∧ c.toNat ≤ 90
  · have ht := char_toNat_ofNat (c.toNat + 32) (by omega)
    simp only [Char.toLower, if_pos h]
    rw [isPySpace_eq_false_of_ge c (by omega),
      isPySpace_eq_false_of_ge _ (by rw [ht]; omega)]
  · simp only [Char.toLower, if_neg h]

/-- Every whitespace character of the list is a plain `' '`. -/
def allBlank (l : List Char) : Prop := ∀ c ∈ l, isPySpace c = true → c = ' '

/-- No two adjacent whitespace characters. -/
def noAdjWs (l : List Char) : Prop :=
  l.Chain' (fun a b => ¬(isPySpace a = true ∧ isPySpace b = true))

/-- Output characterization of the whitespace collapse: all whitespace is
`' '`, no two adjacent whitespace characters, and (in the `true` state) the
output never starts with whitespace. -/
theorem collapseAux_props : ∀ l : List Char,
    (∀ b, allBlank (collapseAux b l) ∧ noAdjWs (collapseAux b l)) ∧
      (∀ c, (collapseAux true l).head? = some c → isPySpace c = false) := by
  intro l
  induction l with
  | nil => simp [collapseAux, allBlank, noAdjWs]
  | cons a rest ih =>
    obtain ⟨ihb, ihh⟩ := ih
    constructor
    · intro b
      by_cases ha : isPySpace a = true
      · cases b with
        | true =>
          simp only [collapseAux, ha, if_pos]
          exact ihb true
        | false =>
          simp only [collapseAux, ha, if_pos]
          constructor
          · intro c hc hws
            rcases List.mem_cons.mp hc with rfl | hc'
            · rfl
            · exact (ihb true).1 c hc' hws
          · refine List.chain'_cons'.mpr ⟨?_, (ihb true).2⟩
            intro y hy
            have := ihh y hy
            simp [this]
      · have ha' : isPySpace a = false := by
          cases hps : isPySpace a
          · rfl
          · exact absurd hps ha
        simp only [collapseAux, ha', Bool.false_eq_true, if_false]
        constructor
        · intro c hc hws
          rcases List.mem_cons.mp hc with rfl | hc'
          · exact absurd hws ha
          · exact (ihb false).1 c hc' hws
        · refine List.chain'_cons'.mpr ⟨?_, (ihb false).2⟩
          intro y hy
          simp [ha']
    · intro c hc
      by_cases ha : isPySpace a = true
      · simp only [collapseAux, ha, if_pos] at hc
        exact ihh c hc
      · have ha' : isPySpace a = false := by
          cases hps : isPySpace a
          · rfl
          · exact absurd hps ha
        simp only [collapseAux, ha', Bool.false_eq_true, if_false,
          List.head?_cons, Option.some.injEq] at hc
        rw [← hc]
        exact ha'

/-- Collapsing is the identity on lists that are already collapsed. -/
theorem collapseAux_fix : ∀ l : List Char, allBlank l → noAdjWs l →
    (collapseAux false l = l ∧
      ((∀ c, l.head? = some c → isPySpace c = false) → collapseAux true l = l)) := by
  intro l
  induction l with
  | nil => simp [collapseAux]
  | cons a rest ih =>
    intro h1 h2
    have h1' : allBlank rest := fun c hc => h1 c (List.mem_cons.mpr (Or.inr hc))
    have h2' : noAdjWs rest := (List.chain'_cons'.mp h2).2
    obtain ⟨ihf, iht⟩ := ih h1' h2'
    constructor
    · by_cases ha : isPySpace a = true
      · have haa : a = ' ' := h1 a (List.mem_cons.mpr (Or.inl rfl)) ha
        simp only [collapseAux, ha, if_pos]
        have hrest : ∀ c, rest.head? = some c → isPySpace c = false := by
          intro c hc
          have := (List.chain'_cons'.mp h2).1 c hc
          cases hcs : isPySpace c
          · rfl
          · exact absurd ⟨ha, hcs⟩ this
        rw [iht hrest, haa]
        simp
      · have ha' : isPySpace a = false := by
          cases hps : isPySpace a
          · rfl
          · exact absurd hps ha
        simp only [collapseAux, ha', Bool.false_eq_true, if_false]
        rw [ihf]
    · intro hh
      have ha' : isPySpace a = false := hh a rfl
      simp only [collapseAux, ha', Bool.false_eq_true, if_false]
      rw [ihf]

/-- A `dropWhile` output never starts with a character satisfying the
predicate. -/
theorem dropWhile_head?_false {p : Char → Bool} : ∀ (l : List Char) (c : Char),
    (l.dropWhile p).head? = some c → p c = false := by
  intro l
  induction l with
  | nil => intro c hc; simp at hc
  | cons a t ih =>
    intro c hc
    by_cases ha : p a
    · rw [List.dropWhile_cons_of_pos ha] at hc
      exact ih c hc
    · have ha' : p a = false := by
        cases hps : p a
        · rfl
        · exact absurd hps ha
      rw [List.dropWhile_cons_of_neg (by simp [ha'])] at hc
      simp only [List.head?_cons, Option.some.injEq] at hc
      rw [← hc]
      exact ha'

/-- `dropWhile` is the identity when the head does not satisfy the
predicate. -/
theorem dropWhile_eq_self_of {p : Char → Bool} (l : List Char)
    (h : ∀ c, l.head? = some c → p c = false) : l.dropWhile p = l := by
  cases l with
  | nil => rfl
  | cons a t =>
    have := h a rfl
    rw [List.dropWhile_cons_of_neg (by simp [this])]

/-- `strip` never returns a list starting with whitespace. -/
theorem stripL_head?_false (l : List Char) (c : Char)
    (h : (stripL l).head? = some c) : isPySpace c = false := by
  unfold stripL at h
  rw [List.head?_reverse] at h
  obtain ⟨pre, hpre⟩ := List.dropWhile_suffix
    (l := (l.dropWhile isPySpace).reverse) isPySpace
  have h2 : ((l.dropWhile isPySpace).reverse).getLast? = some c := by
    rw [← hpre, List.getLast?_append, h]
    rfl
  rw [List.getLast?_eq_head?_reverse, List.reverse_reverse] at h2
  exact dropWhile_head?_false _ _ h2

/-- `strip` never returns a list ending with whitespace. -/
theorem stripL_getLast?_false (l : List Char) (c : Char)
    (h : (stripL l).getLast? = some c) : isPySpace c = false := by
  unfold stripL at h
  rw [List.getLast?_eq_head?_reverse, List.reverse_reverse] at h
  exact dropWhile_head?_false _ _ h

/-- `strip` is the identity when neither end is whitespace. -/
theorem stripL_eq_self (l : List Char)
    (hh : ∀ c, l.head? = some c → isPySpace c = false)
    (hl : ∀ c, l.getLast? = some c → isPySpace c = false) : stripL l = l := by
  unfold stripL
  rw [dropWhile_eq_self_of l hh]
  rw [dropWhile_eq_self_of l.reverse
    (fun c hc => hl c (by rwa [← List.head?_reverse]))]
  exact List.reverse_reverse l

/-- Elements of `strip l` are elements of `l`. -/
theorem mem_stripL (l : List Char) (c : Char) (h : c ∈ stripL l) : c ∈ l := by
  unfold stripL at h
  rw [List.mem_reverse] at h
  have h2 := (List.dropWhile_suffix (l := (l.dropWhile isPySpace).reverse)
    isPySpace).mem h
  rw [List.mem_reverse] at h2
  exact (List.dropWhile_suffix isPySpace).mem h2

theorem allBlank_stripL (l : List Char) (h : allBlank l) : allBlank (stripL l) :=
  fun c hc => h c (mem_stripL l c hc)

theorem noAdjWs_stripL (l : List Char) (h : noAdjWs l) : noAdjWs (stripL l) := by
  unfold stripL
  have s1 : noAdjWs (l.dropWhile isPySpace) :=
    List.Chain'.suffix h (List.dropWhile_suffix isPySpace)
  have s2 : noAdjWs ((l.dropWhile isPySpace).reverse) := by
    rw [noAdjWs, List.chain'_reverse]
    exact s1.imp (fun a b hab => fun ⟨x, y⟩ => hab ⟨y, x⟩)
  have s3 : noAdjWs (((l.dropWhile isPySpace).reverse).dropWhile isPySpace) :=
    List.Chain'.suffix s2 (List.dropWhile_suffix isPySpace)
  rw [noAdjWs, List.chain'_reverse]
  exact s3.imp (fun a b hab => fun ⟨x, y⟩ => hab ⟨y, x⟩)

theorem allBlank_lowerL (l : List Char) (h : allBlank l) : allBlank (lowerL l) := by
  intro c hc hws
  obtain ⟨c', hc', rfl⟩ := List.mem_map.mp hc
  rw [isPySpace_toLower] at hws
  rw [h c' hc' hws]
  rfl

theorem noAdjWs_lowerL (l : List Char) (h : noAdjWs l) : noAdjWs (lowerL l) := by
  rw [noAdjWs, lowerL, List.chain'_map]
  exact h.imp (fun a b hab => by
    rw [isPySpace_toLower, isPySpace_toLower]
    exact hab)

/-- `map toLower` is the identity on already-lowercased lists. -/
theorem lowerL_eq_self (l : List Char) (h : ∀ c ∈ l, Char.toLower c = c) :
    lowerL l = l := by
  induction l with
  | nil => rfl
  | cons a t ih =>
    simp only [lowerL, List.map_cons]
    have ht := ih (fun c hc => h c (List.mem_cons.mpr (Or.inr hc)))
    simp only [lowerL] at ht
    rw [h a (List.mem_cons_self _ _), ht]

/-- The composite `strip ∘ lower ∘ collapse` produces a fixed point of
itself: its output is collapsed, lowercased and stripped already. -/
theorem normExpanded_fix_core (t1 : List Char) :
    stripL (lowerL (collapseWS (stripL (lowerL (collapseWS t1))))) =
      stripL (lowerL (collapseWS t1)) := by
  set z := collapseWS t1 with hz
  have hzprops := collapseAux_props t1
  have hab : allBlank z := (hzprops.1 false).1
  have hna : noAdjWs z := (hzprops.1 false).2
  set y := stripL (lowerL z) with hy
  have hyb : allBlank y := allBlank_stripL _ (allBlank_lowerL _ hab)
  have hyn : noAdjWs y := noAdjWs_stripL _ (noAdjWs_lowerL _ hna)
  have hcol : collapseWS y = y := (collapseAux_fix y hyb hyn).1
  have hlow : lowerL y = y := by
    refine lowerL_eq_self y (fun c hc => ?_)
    have hc2 := mem_stripL _ c hc
    obtain ⟨c', _, rfl⟩ := List.mem_map.mp hc2
    exact toLower_toLower c'
  have hstr : stripL y = y := by
    refine stripL_eq_self y (fun c hc => stripL_head?_false _ c hc)
      (fun c hc => stripL_getLast?_false _ c hc)
  rw [hcol, hlow, hstr]

/-- `asString` and `toList` are mutually inverse. -/
theorem toList_asString_inv (s : String) : s.toList.asString = s := by
  cases s
  rfl

/-- When the prefix regex does not match, the expanded normalizer is just
`strip ∘ lower ∘ collapse`. -/
theorem normExpanded_eq_of_none (s : String)
    (hs : stripPrefixAux s.toList = none) :
    normalize_title_expanded s = (stripL (lowerL (collapseWS s.toList))).asString := by
  unfold normalize_title_expanded
  rw [hs]

/-- C7 (amended).  The title normalizer is *not* idempotent in general — a
second application can strip a further boilerplate prefix (see the
counterexample) — but the expanded-index normalizer is idempotent exactly
on the inputs whose normalized output is left unchanged by the
prefix-stripping step (`stripPrefixAux ... = none`): whitespace collapse,
lowercasing and stripping are all fixed on its output. -/
theorem C7_normalize_idempotent_conditional (x : String)
    (h : stripPrefixAux (normalize_title_expanded x).toList = none) :
    normalize_title_expanded (normalize_title_expanded x) =
      normalize_title_expanded x := by
  have hx : ∃ t1, normalize_title_expanded x
      = (stripL (lowerL (collapseWS t1))).asString := by
    unfold normalize_title_expanded
    cases hs : stripPrefixAux x.toList
    · exact ⟨x.toList, rfl⟩
    · exact ⟨_, rfl⟩
  obtain ⟨t1, ht1⟩ := hx
  rw [normExpanded_eq_of_none _ h, ht1]
  show (stripL (lowerL (collapseWS (stripL (lowerL (collapseWS t1)))))).asString = _
  rw [normExpanded_fix_core]

/-- C7 witness: on `"abc"` the normalized output has no further prefix to
strip, and a second normalization is the identity. -/
theorem C7_normalize_idempotent_conditional_witness :
    normalize_title_expanded (normalize_title_expanded "abc") =
      normalize_title_expanded "abc" :=
  C7_normalize_idempotent_conditional "abc" (by decide)

/-- C7 counterexample.  Both cited normalizers fail idempotence outright:
the expanded-index normalizer maps `"Hearing: Hearing: X"` to
`"hearing: x"`, which a second application strips again to `"x"`; the
match_all normalizer maps `"(Committee Hearing Meeting:)"` (via the
parenthetical branch) to `"committee hearing meeting:"`, which a second
application reduces to `"committee hearing meeting"`. -/
theorem C7_counterexample :
    ¬(normalize_title_expanded (normalize_title_expanded "Hearing: Hearing: X") =
        normalize_title_expanded "Hearing: Hearing: X") ∧
    ¬(normalize_title (normalize_title "(Committee Hearing Meeting:)") =
        normalize_title "(Committee Hearing Meeting:)") := by
  constructor
  · intro h
    have h1 : normalize_title_expanded "Hearing: Hearing: X" = "hearing: x" := by decide
    have h2 : normalize_title_expanded "hearing: x" = "x" := by decide
    rw [h1, h2] at h
    exact absurd h (by decide)
  · intro h
    have h1 : normalize_title "(Committee Hearing Meeting:)"
        = "committee hearing meeting:" := by decide
    have h2 : normalize_title "committee hearing meeting:"
        = "committee hearing meeting" := by decide
    rw [h1, h2] at h
    exact absurd h (by decide)

/-! ## C8 infrastructure: the date→events index -/

/-- Adding under key `d'` affects exactly the bucket of `d'`, appending the
event at its end. -/
theorem lookupIndex_addToIndex (idx : List (Int × List Event)) (d d' : Int)
    (e : Event) :
    lookupIndex (addToIndex idx d' e) d =
      if d = d' then lookupIndex idx d ++ [e] else lookupIndex idx d := by
  induction idx with
  | nil =>
    by_cases hdd : d = d'
    · subst hdd
      simp [addToIndex, lookupIndex, List.find?]
    · simp [addToIndex, lookupIndex, List.find?, hdd, Ne.symm hdd]
  | cons b rest ih =>
    obtain ⟨d0, es0⟩ := b
    by_cases h0 : d0 = d'
    · subst h0
      simp only [addToIndex, if_pos rfl]
      by_cases hdd : d = d0
      · subst hdd
        simp [lookupIndex, List.find?]
      · simp [lookupIndex, List.find?, hdd, Ne.symm hdd]
    · simp only [addToIndex, if_neg h0]
      by_cases hdd : d = d0
      · subst hdd
        simp [lookupIndex, List.find?, Ne.symm (fun hc => h0 hc.symm)]
      · simp only [lookupIndex, List.find?]
        have hd0 : (decide (d0 = d)) = false := by
          simp
          exact fun hc => hdd hc.symm
        rw [hd0]
        simp only [lookupIndex] at ih
        exact ih

/-- `date_index[d]` of the built index is exactly the date-`d` events, in
input order. -/
theorem lookupIndex_build (events : List Event) (d : Int) :
    ∀ idx, lookupIndex (events.foldl (fun idx e =>
        match e.date with
        | some d0 => addToIndex idx d0 e
        | none => idx) idx) d =
      lookupIndex idx d ++ events.filter (fun e => e.date = some d) := by
  induction events with
  | nil => intro idx; simp
  | cons e rest ih =>
    intro idx
    simp only [List.foldl_cons]
    cases he : e.date with
    | none =>
      rw [ih idx]
      have : (decide (e.date = some d)) = false := by simp [he]
      simp [List.filter_cons, this]
    | some d0 =>
      rw [ih (addToIndex idx d0 e), lookupIndex_addToIndex]
      by_cases hdd : d = d0
      · subst hdd
        have : (decide (e.date = some d)) = true := by simp [he]
        simp [List.filter_cons, this]
      · have : (decide (e.date = some d)) = false := by simp [he, Ne.symm hdd]
        simp [List.filter_cons, this, hdd]

/-- Concatenating filters of disjoint predicates is a permutation of the
filter of their disjunction. -/
theorem filter_disjoint_perm {α : Type} (p q : α → Bool) (l : List α)
    (hdisj : ∀ a, ¬(p a = true ∧ q a = true)) :
    (l.filter p ++ l.filter q).Perm (l.filter (fun a => p a || q a)) := by
  induction l with
  | nil => simp
  | cons a t ih =>
    by_cases hp : p a = true
    · have hq : q a = false := by
        cases hqs : q a
        · rfl
        · exact absurd ⟨hp, hqs⟩ (hdisj a)
      simp only [List.filter_cons, hp, hq, Bool.true_or, if_pos, Bool.false_eq_true,
        if_false, List.cons_append]
      exact ih.cons a
    · have hp' : p a = false := by
        cases hps : p a
        · rfl
        · exact absurd hps hp
      by_cases hq : q a = true
      · simp only [List.filter_cons, hp', hq, Bool.false_or, Bool.false_eq_true,
          if_false, if_pos]
        exact List.perm_middle.trans (ih.cons a)
      · have hq' : q a = false := by
          cases hqs : q a
          · rfl
          · exact absurd hqs hq
        simp only [List.filter_cons, hp', hq', Bool.or_self, Bool.false_eq_true,
          if_false]
        exact ih

/-- The five window lookups together are a permutation of the window
filter (the five looked-up dates are exactly the integers of the
window). -/
theorem selectWindow_perm (events : List Event) (y : Int) :
    (lookupIndex (buildDateIndex events) y ++
      lookupIndex (buildDateIndex events) (y + -3) ++
      lookupIndex (buildDateIndex events) (y + -2) ++
      lookupIndex (buildDateIndex events) (y + -1) ++
      lookupIndex (buildDateIndex events) (y + 1)).Perm
      (dateWindowFilter events y) := by
  have hb : ∀ d : Int, lookupIndex (buildDateIndex events) d
      = events.filter (fun e => e.date = some d) := by
    intro d
    have := lookupIndex_build events d []
    simpa [buildDateIndex, lookupIndex, List.find?] using this
  rw [hb, hb, hb, hb, hb]
  have step1 : (events.filter (fun e => e.date = some (y + -1)) ++
      events.filter (fun e => e.date = some (y + 1))).Perm
      (events.filter (fun e => decide (e.date = some (y + -1)) ||
        decide (e.date = some (y + 1)))) := by
    refine filter_disjoint_perm _ _ _ (fun e => ?_)
    rintro ⟨h1, h2⟩
    simp only [decide_eq_true_eq] at h1 h2
    rw [h1] at h2
    simp only [Option.some.injEq] at h2
    omega
  have step2 : (events.filter (fun e => e.date = some (y + -2)) ++
      (events.filter (fun e => decide (e.date = some (y + -1)) ||
        decide (e.date = some (y + 1))))).Perm
      (events.filter (fun e => decide (e.date = some (y + -2)) ||
        (decide (e.date = some (y + -1)) || decide (e.date = some (y + 1))))) := by
    refine filter_disjoint_perm _ _ _ (fun e => ?_)
    rintro ⟨h1, h2⟩
    simp only [decide_eq_true_eq, Bool.or_eq_true] at h1 h2
    rcases h2 with h2 | h2 <;> (rw [h1] at h2; simp only [Option.some.injEq] at h2; omega)
  have step3 : (events.filter (fun e => e.date = some (y + -3)) ++
      (events.filter (fun e => decide (e.date = some (y + -2)) ||
        (decide (e.date = some (y + -1)) || decide (e.date = some (y + 1)))))).Perm
      (events.filter (fun e => decide (e.date = some (y + -3)) ||
        (decide (e.date = some (y + -2)) ||
          (decide (e.date = some (y + -1)) || decide (e.date = some (y + 1)))))) := by
    refine filter_disjoint_perm _ _ _ (fun e => ?_)
    rintro ⟨h1, h2⟩
    simp only [decide_eq_true_eq, Bool.or_eq_true] at h1 h2
    rcases h2 with h2 | h2 | h2 <;>
      (rw [h1] at h2; simp only [Option.some.injEq] at h2; omega)
  have step4 : (events.filter (fun e => e.date = some y) ++
      (events.filter (fun e => decide (e.date = some (y + -3)) ||
        (decide (e.date = some (y + -2)) ||
          (decide (e.date = some (y + -1)) || decide (e.date = some (y + 1))))))).Perm
      (events.filter (fun e => decide (e.date = some y) ||
        (decide (e.date = some (y + -3)) ||
          (decide (e.date = some (y + -2)) ||
            (decide (e.date = some (y + -1)) || decide (e.date = some (y + 1))))))) := by
    refine filter_disjoint_perm _ _ _ (fun e => ?_)
    rintro ⟨h1, h2⟩
    simp only [decide_eq_true_eq, Bool.or_eq_true] at h1 h2
    rcases h2 with h2 | h2 | h2 | h2 <;>
      (rw [h1] at h2; simp only [Option.some.injEq] at h2; omega)
  have hfinal : (events.filter (fun e => decide (e.date = some y) ||
      (decide (e.date = some (y + -3)) ||
        (decide (e.date = some (y + -2)) ||
          (decide (e.date = some (y + -1)) || decide (e.date = some (y + 1)))))))
      = dateWindowFilter events y := by
    unfold dateWindowFilter
    refine List.filter_congr (fun e _ => ?_)
    cases hd : e.date with
    | none => simp
    | some d =>
      simp only [hd, Option.some.injEq]
      rw [Bool.eq_iff_iff]
      simp only [Bool.or_eq_true, decide_eq_true_eq]
      omega
  have hassoc : (events.filter (fun e => e.date = some y) ++
      events.filter (fun e => e.date = some (y + -3)) ++
      events.filter (fun e => e.date = some (y + -2)) ++
      events.filter (fun e => e.date = some (y + -1)) ++
      events.filter (fun e => e.date = some (y + 1)))
      = events.filter (fun e => e.date = some y) ++
        (events.filter (fun e => e.date = some (y + -3)) ++
          (events.filter (fun e => e.date = some (y + -2)) ++
            (events.filter (fun e => e.date = some (y + -1)) ++
              events.filter (fun e => e.date = some (y + 1))))) := by
    simp [List.append_assoc]
  rw [hassoc, ← hfinal]
  exact (List.Perm.append_left _ (List.Perm.append_left _
      (List.Perm.append_left _ step1))).trans
    ((List.Perm.append_left _ (List.Perm.append_left _ step2)).trans
      ((List.Perm.append_left _ step3).trans step4))

/-- C8.  For a video with a date `y`, the candidate selector built on the
once-per-run date index returns (as a multiset) exactly the events whose
dates fall in the asymmetric window `[y − 3, y + 1]`; for a video with no
date, or when the window holds no events, it falls back to the entire
event set. -/
theorem C8_candidate_selector (events : List Event) (y : Int) :
    (select_candidates (buildDateIndex events) events none = events) ∧
    (dateWindowFilter events y = [] →
      select_candidates (buildDateIndex events) events (some y) = events) ∧
    (dateWindowFilter events y ≠ [] →
      (select_candidates (buildDateIndex events) events (some y)).Perm
        (dateWindowFilter events y)) := by
  have hperm := selectWindow_perm events y
  refine ⟨rfl, ?_, ?_⟩
  · intro hwin
    rw [hwin] at hperm
    have hnil := hperm.eq_nil
    unfold select_candidates
    dsimp only
    rw [hnil]
  · intro hwin
    unfold select_candidates
    dsimp only
    cases hc : (lookupIndex (buildDateIndex events) y ++
        lookupIndex (buildDateIndex events) (y + -3) ++
        lookupIndex (buildDateIndex events) (y + -2) ++
        lookupIndex (buildDateIndex events) (y + -1) ++
        lookupIndex (buildDateIndex events) (y + 1)) with
    | nil =>
      rw [hc] at hperm
      exact absurd hperm.symm.eq_nil hwin
    | cons a t =>
      rw [hc] at hperm
      exact hperm

/-- C8 witness: an in-window event is selected, an out-of-window-only set
falls back to all events, and a dateless video scores against the whole
set. -/
theorem C8_candidate_selector_witness :
    select_candidates
        (buildDateIndex [⟨"E1", none, "t", some 0, "", none, []⟩])
        [⟨"E1", none, "t", some 0, "", none, []⟩] none
      = [⟨"E1", none, "t", some 0, "", none, []⟩] ∧
    (select_candidates
        (buildDateIndex [⟨"E1", none, "t", some 0, "", none, []⟩,
          ⟨"E2", none, "t", some 10, "", none, []⟩])
        [⟨"E1", none, "t", some 0, "", none, []⟩,
          ⟨"E2", none, "t", some 10, "", none, []⟩] (some 0)).Perm
      (dateWindowFilter [⟨"E1", none, "t", some 0, "", none, []⟩,
        ⟨"E2", none, "t", some 10, "", none, []⟩] 0) ∧
    select_candidates
        (buildDateIndex [⟨"E3", none, "t", some 50, "", none, []⟩])
        [⟨"E3", none, "t", some 50, "", none, []⟩] (some 0)
      = [⟨"E3", none, "t", some 50, "", none, []⟩] := by
  refine ⟨(C8_candidate_selector [⟨"E1", none, "t", some 0, "", none, []⟩] 0).1,
    (C8_candidate_selector _ 0).2.2 (by decide),
    (C8_candidate_selector _ 0).2.1 (by decide)⟩

/-! ## C5 / C9 / C10 infrastructure: the sorted score list -/

/-- The head of the sorted score list of the LLM pipeline is a scored input
event attaining the maximal score over *all* events. -/
theorem scoredEventsL_spec (events : List Event) (v : LVideo)
    (top : Event × ℚ) (rest : List (Event × ℚ))
    (h : scoredEventsL events v = top :: rest) :
    top.1 ∈ events ∧ top.2 = calculate_basic_match_score v top.1 ∧
      ∀ e ∈ events, calculate_basic_match_score v e ≤ top.2 := by
  unfold scoredEventsL at h
  have hmem := sortByScoreDesc_head_mem (fun se => se.2)
    (events.map (fun e => (e, calculate_basic_match_score v e))) top rest h
  obtain ⟨e0, he0, heq⟩ := List.mem_map.mp hmem
  have hmax := sortByScoreDesc_head_max (fun se => se.2)
    (events.map (fun e => (e, calculate_basic_match_score v e))) top rest h
  refine ⟨?_, ?_, ?_⟩
  · rw [← heq]; exact he0
  · rw [← heq]
  · intro e he
    exact hmax (e, calculate_basic_match_score v e) (List.mem_map_of_mem _ he)

/-- C5.  Decision-policy boundary behaviour of `match_with_llm.py`: a video
whose best candidate scores exactly the high threshold 0.7 is accepted
immediately as an algorithmic match (the comparison is `>=`), and a video
whose best candidate scores exactly the low threshold 0.4 falls into the
ambiguous band `0.4 <= s < 0.7`: whenever its candidate list is nonempty
the external adjudicator is consulted, and an identification it returns is
honoured — the video is not rejected outright. -/
theorem C5_threshold_boundary
    (adj : LVideo → List Event → Option MatchDecision) (events : List Event)
    (v : LVideo) (top : Event × ℚ) (rest : List (Event × ℚ))
    (h : scoredEventsL events v = top :: rest) :
    (top.2 = 0.7 →
      processVideoLlm adj events v =
        .inl (mkMatchedL v top.1 top.2 "algorithmic" none none)) ∧
    (top.2 = 0.4 →
      ∀ (c : Event) (cs : List Event) (r : MatchDecision) (id : String)
        (me : Event),
        llmCandidates v (top :: rest) = c :: cs →
        adj v (c :: cs) = some r →
        r.congress_event_id = some id →
        id ≠ "" →
        (c :: cs).find? (fun e => e.eventId = id) = some me →
        processVideoLlm adj events v =
          .inl (mkMatchedL v me top.2 "llm_assisted" (some r.confidence)
            (some r.reasoning))) := by
  constructor
  · intro h7
    simp only [processVideoLlm, h]
    rw [if_pos (by rw [h7])]
  · intro h4 c cs r id me hc hadj hid hne hfind
    simp only [processVideoLlm, h]
    rw [if_neg (by norm_num [h4]), if_pos (by norm_num [h4])]
    rw [hc]
    dsimp only
    rw [hadj]
    dsimp only
    rw [hid]
    dsimp only
    rw [if_neg hne, hfind]

/-- C5 witness: a best score of exactly 0.7 (date 5 days off, identical
titles) is accepted algorithmically; a best score of exactly 0.4 (date 5
days off, half-similar titles) is referred to the adjudicator, whose
identification is honoured. -/
theorem C5_threshold_boundary_witness :
    processVideoLlm (fun _ _ => none) [⟨"E7", none, "ab", some 5, "", none, []⟩]
        ⟨"v7", "ab", "u", 0, "c"⟩
      = .inl (mkMatchedL ⟨"v7", "ab", "u", 0, "c"⟩
          ⟨"E7", none, "ab", some 5, "", none, []⟩ 0.7 "algorithmic" none none) ∧
    processVideoLlm (fun _ _ => some ⟨some "E4", "high", "r"⟩)
        [⟨"E4", none, "abxy", some 5, "", none, []⟩] ⟨"v4", "abcd", "u", 0, "c"⟩
      = .inl (mkMatchedL ⟨"v4", "abcd", "u", 0, "c"⟩
          ⟨"E4", none, "abxy", some 5, "", none, []⟩ 0.4 "llm_assisted"
          (some "high") (some "r")) := by
  constructor
  · have hsc : calculate_basic_match_score ⟨"v7", "ab", "u", 0, "c"⟩
        ⟨"E7", none, "ab", some 5, "", none, []⟩ = 0.7 := by
      simp only [calculate_basic_match_score, llmDateScore]
      rw [show lowerL "ab".toList = "ab".toList from by decide]
      rw [show pyIn "markup".toList "ab".toList = false from by decide]
      rw [show pyIn "hearing".toList "ab".toList = false from by decide]
      rw [show pyIn "meeting".toList "ab".toList = false from by decide]
      rw [show ((0 : Int) - 5).natAbs = 5 from by decide]
      norm_num [smRatio,
        show difflibMatches ['a', 'b'] ['a', 'b'] = 2 from by decide]
    have h := (C5_threshold_boundary (fun _ _ => none)
        [⟨"E7", none, "ab", some 5, "", none, []⟩] ⟨"v7", "ab", "u", 0, "c"⟩
        (⟨"E7", none, "ab", some 5, "", none, []⟩,
          calculate_basic_match_score ⟨"v7", "ab", "u", 0, "c"⟩
            ⟨"E7", none, "ab", some 5, "", none, []⟩) [] rfl).1 hsc
    rw [hsc] at h
    exact h
  · have hsc : calculate_basic_match_score ⟨"v4", "abcd", "u", 0, "c"⟩
        ⟨"E4", none, "abxy", some 5, "", none, []⟩ = 0.4 := by
      simp only [calculate_basic_match_score, llmDateScore]
      rw [show lowerL "abcd".toList = "abcd".toList from by decide]
      rw [show lowerL "abxy".toList = "abxy".toList from by decide]
      rw [show pyIn "markup".toList "abcd".toList = false from by decide]
      rw [show pyIn "hearing".toList "abcd".toList = false from by decide]
      rw [show pyIn "meeting".toList "abcd".toList = false from by decide]
      rw [show ((0 : Int) - 5).natAbs = 5 from by decide]
      norm_num [smRatio,
        show difflibMatches ['a', 'b', 'c', 'd'] ['a', 'b', 'x', 'y'] = 2 from by decide]
    have h := (C5_threshold_boundary (fun _ _ => some ⟨some "E4", "high", "r"⟩)
        [⟨"E4", none, "abxy", some 5, "", none, []⟩] ⟨"v4", "abcd", "u", 0, "c"⟩
        (⟨"E4", none, "abxy", some 5, "", none, []⟩,
          calculate_basic_match_score ⟨"v4", "abcd", "u", 0, "c"⟩
            ⟨"E4", none, "abxy", some 5, "", none, []⟩) [] rfl).2 hsc
        ⟨"E4", none, "abxy", some 5, "", none, []⟩ [] ⟨some "E4", "high", "r"⟩
        "E4" ⟨"E4", none, "abxy", some 5, "", none, []⟩ rfl rfl rfl (by decide) rfl
    rw [hsc] at h
    exact h

/-- C9.  When a video is referred to the adjudicator and the adjudication
call fails (the adjudicator function returns `none`, as `get_llm_match`
does on any transport or parsing error), the caller records the video as
unmatched, retaining the best score and the best-scoring candidate's title
as diagnostics; the failure is never propagated (the per-video step is a
total function producing an entry). -/
theorem C9_adjudication_failure_recovery
    (adj : LVideo → List Event → Option MatchDecision) (events : List Event)
    (v : LVideo) (top : Event × ℚ) (rest : List (Event × ℚ))
    (h : scoredEventsL events v = top :: rest)
    (hlo : 0.4 ≤ top.2) (hhi : top.2 < 0.7)
    (c : Event) (cs : List Event)
    (hc : llmCandidates v (top :: rest) = c :: cs)
    (hadj : adj v (c :: cs) = none) :
    processVideoLlm adj events v = .inr (mkUnmatchedL v (top :: rest) top.2) ∧
    (mkUnmatchedL v (top :: rest) top.2).best_score = top.2 ∧
    (mkUnmatchedL v (top :: rest) top.2).best_match = some top.1.title := by
  refine ⟨?_, rfl, rfl⟩
  simp only [processVideoLlm, h]
  rw [if_neg (not_le.mpr hhi), if_pos hlo, hc]
  dsimp only
  rw [hadj]

/-- C9 witness: best score 0.4, one in-window candidate, failing
adjudicator — the video lands in `unmatched` with its diagnostics. -/
theorem C9_adjudication_failure_recovery_witness :
    processVideoLlm (fun _ _ => none)
        [⟨"E4", none, "abxy", some 5, "", none, []⟩] ⟨"v4", "abcd", "u", 0, "c"⟩
      = .inr (mkUnmatchedL ⟨"v4", "abcd", "u", 0, "c"⟩
          [(⟨"E4", none, "abxy", some 5, "", none, []⟩, 0.4)] 0.4) ∧
    (mkUnmatchedL ⟨"v4", "abcd", "u", 0, "c"⟩
        [(⟨"E4", none, "abxy", some 5, "", none, []⟩, 0.4)] 0.4).best_match
      = some "abxy" := by
  have hsc : calculate_basic_match_score ⟨"v4", "abcd", "u", 0, "c"⟩
      ⟨"E4", none, "abxy", some 5, "", none, []⟩ = 0.4 := by
    simp only [calculate_basic_match_score, llmDateScore]
    rw [show lowerL "abcd".toList = "abcd".toList from by decide]
    rw [show lowerL "abxy".toList = "abxy".toList from by decide]
    rw [show pyIn "markup".toList "abcd".toList = false from by decide]
    rw [show pyIn "hearing".toList "abcd".toList = false from by decide]
    rw [show pyIn "meeting".toList "abcd".toList = false from by decide]
    rw [show ((0 : Int) - 5).natAbs = 5 from by decide]
    norm_num [smRatio,
      show difflibMatches ['a', 'b', 'c', 'd'] ['a', 'b', 'x', 'y'] = 2 from by decide]
  have h := C9_adjudication_failure_recovery (fun _ _ => none)
    [⟨"E4", none, "abxy", some 5, "", none, []⟩] ⟨"v4", "abcd", "u", 0, "c"⟩
    (⟨"E4", none, "abxy", some 5, "", none, []⟩,
      calculate_basic_match_score ⟨"v4", "abcd", "u", 0, "c"⟩
        ⟨"E4", none, "abxy", some 5, "", none, []⟩) [] rfl
    (by rw [hsc]) (by rw [hsc]; norm_num)
    ⟨"E4", none, "abxy", some 5, "", none, []⟩ [] rfl rfl
  rw [hsc] at h
  exact ⟨h.1, rfl⟩

/-- C10.  For every match accepted through the adjudicator, the recorded
`score` is the best algorithmic score over *all* events for that video —
even when the adjudicator selected a candidate other than the top-scoring
event, whose own score may differ. -/
theorem C10_recorded_score_is_top_score
    (adj : LVideo → List Event → Option MatchDecision) (events : List Event)
    (v : LVideo) (top : Event × ℚ) (rest : List (Event × ℚ))
    (h : scoredEventsL events v = top :: rest)
    (hlo : 0.4 ≤ top.2) (hhi : top.2 < 0.7)
    (c : Event) (cs : List Event)
    (hc : llmCandidates v (top :: rest) = c :: cs)
    (r : MatchDecision) (hadj : adj v (c :: cs) = some r)
    (id : String) (hid : r.congress_event_id = some id) (hne : id ≠ "")
    (me : Event)
    (hfind : (c :: cs).find? (fun e => e.eventId = id) = some me) :
    processVideoLlm adj events v
      = .inl (mkMatchedL v me top.2 "llm_assisted" (some r.confidence)
          (some r.reasoning)) ∧
    (mkMatchedL v me top.2 "llm_assisted" (some r.confidence)
        (some r.reasoning)).score = top.2 ∧
    (∀ e ∈ events, calculate_basic_match_score v e ≤ top.2) ∧
    (mkMatchedL v me top.2 "llm_assisted" (some r.confidence)
        (some r.reasoning)).eventId = me.eventId := by
  refine ⟨?_, rfl, (scoredEventsL_spec events v top rest h).2.2, rfl⟩
  simp only [processVideoLlm, h]
  rw [if_neg (not_le.mpr hhi), if_pos hlo, hc]
  dsimp only
  rw [hadj]
  dsimp only
  rw [hid]
  dsimp only
  rw [if_neg hne, hfind]

/-- C10 witness: events `E1` (title "abx", score 9/14 ≈ 0.64, the top
scorer) and `E2` (title "abxy", score 3/5 = 0.6); the adjudicator selects
`E2`, yet the recorded score is 9/14 — the top event's score, not
`E2`'s. -/
theorem C10_recorded_score_is_top_score_witness :
    processVideoLlm (fun _ _ => some ⟨some "E2", "high", "r"⟩)
        [⟨"E1", none, "abx", some 0, "", none, []⟩,
          ⟨"E2", none, "abxy", some 0, "", none, []⟩]
        ⟨"v", "abcd", "u", 0, "c"⟩
      = .inl (mkMatchedL ⟨"v", "abcd", "u", 0, "c"⟩
          ⟨"E2", none, "abxy", some 0, "", none, []⟩ (9/14) "llm_assisted"
          (some "high") (some "r")) ∧
    calculate_basic_match_score ⟨"v", "abcd", "u", 0, "c"⟩
        ⟨"E2", none, "abxy", some 0, "", none, []⟩ = 3/5 ∧
    ((9 : ℚ)/14) ≠ 3/5 := by
  have hs1 : calculate_basic_match_score ⟨"v", "abcd", "u", 0, "c"⟩
      ⟨"E1", none, "abx", some 0, "", none, []⟩ = 9/14 := by
    simp only [calculate_basic_match_score, llmDateScore]
    rw [show lowerL "abcd".toList = "abcd".toList from by decide]
    rw [show lowerL "abx".toList = "abx".toList from by decide]
    rw [show pyIn "markup".toList "abcd".toList = false from by decide]
    rw [show pyIn "hearing".toList "abcd".toList = false from by decide]
    rw [show pyIn "meeting".toList "abcd".toList = false from by decide]
    rw [show ((0 : Int) - 0).natAbs = 0 from by decide]
    norm_num [smRatio,
      show difflibMatches ['a', 'b', 'c', 'd'] ['a', 'b', 'x'] = 2 from by decide]
  have hs2 : calculate_basic_match_score ⟨"v", "abcd", "u", 0, "c"⟩
      ⟨"E2", none, "abxy", some 0, "", none, []⟩ = 3/5 := by
    simp only [calculate_basic_match_score, llmDateScore]
    rw [show lowerL "abcd".toList = "abcd".toList from by decide]
    rw [show lowerL "abxy".toList = "abxy".toList from by decide]
    rw [show pyIn "markup".toList "abcd".toList = false from by decide]
    rw [show pyIn "hearing".toList "abcd".toList = false from by decide]
    rw [show pyIn "meeting".toList "abcd".toList = false from by decide]
    rw [show ((0 : Int) - 0).natAbs = 0 from by decide]
    norm_num [smRatio,
      show difflibMatches ['a', 'b', 'c', 'd'] ['a', 'b', 'x', 'y'] = 2 from by decide]
  have hsorted : scoredEventsL
      [⟨"E1", none, "abx", some 0, "", none, []⟩,
        ⟨"E2", none, "abxy", some 0, "", none, []⟩]
      ⟨"v", "abcd", "u", 0, "c"⟩
      = [(⟨"E1", none, "abx", some 0, "", none, []⟩, 9/14),
         (⟨"E2", none, "abxy", some 0, "", none, []⟩, 3/5)] := by
    unfold scoredEventsL sortByScoreDesc
    simp only [List.map, hs1, hs2, List.foldr]
    norm_num [insertByScore]
  have h := C10_recorded_score_is_top_score
    (fun _ _ => some ⟨some "E2", "high", "r"⟩)
    [⟨"E1", none, "abx", some 0, "", none, []⟩,
      ⟨"E2", none, "abxy", some 0, "", none, []⟩]
    ⟨"v", "abcd", "u", 0, "c"⟩
    (⟨"E1", none, "abx", some 0, "", none, []⟩, 9/14)
    [(⟨"E2", none, "abxy", some 0, "", none, []⟩, 3/5)]
    hsorted (by norm_num) (by norm_num)
    ⟨"E1", none, "abx", some 0, "", none, []⟩
    [⟨"E2", none, "abxy", some 0, "", none, []⟩] rfl
    ⟨some "E2", "high", "r"⟩ rfl "E2" rfl (by decide)
    ⟨"E2", none, "abxy", some 0, "", none, []⟩ (by decide)
  exact ⟨h.1, hs2, by norm_num⟩

/-! ## C2 infrastructure: the same-day re-ranking pass -/

/-- The head of the sorted candidate list is the scored form of its own
event, and that event is an input event. -/
theorem scoreAll_head_form (v : Video) (events : List Event) (best : AMatch)
    (srest : List AMatch) (hsorted : scoreAll v events = best :: srest) :
    best = aMatchOf v best.event ∧ best.event ∈ events := by
  unfold scoreAll at hsorted
  have hmem := sortByScoreDesc_head_mem (fun m => m.score)
    (events.map (aMatchOf v)) best srest hsorted
  obtain ⟨e0, he0, heq⟩ := List.mem_map.mp hmem
  have hev : best.event = e0 := by rw [← heq]; rfl
  constructor
  · rw [hev, ← heq]
  · rw [hev]; exact he0

/-- A pattern is a substring of any string it prefixes. -/
theorem pyIn_of_append (sub rest : List Char) : pyIn sub (sub ++ rest) = true := by
  simp only [pyIn, decide_eq_true_eq]
  exact ⟨[], rest, by simp⟩

/-- A video with an exact date scored against an event on the same day
records the `"Exact date match"` reason — the trigger of the re-ranking
branch. -/
theorem aMatch_exactDate_reason (v : Video) (e : Event) (y : Int)
    (hy : v.exact_date = some y) (he : e.date = some y) :
    (aMatchOf v e).reasons.any
      (fun r => pyIn "Exact date match".toList r.toList) = true := by
  have hytd : (v.exact_date <|> v.approximate_date) = some y := by
    rw [hy]; rfl
  have hdr : dateScoreA (v.exact_date <|> v.approximate_date) e.date
      = (0.3, ["Exact date match: " ++ toString y]) := by
    rw [hytd, he]
    simp [dateScoreA]
  simp only [aMatchOf, calculate_match_score, hdr]
  have hsplit : ("Exact date match: " ++ toString y).toList
      = "Exact date match".toList ++ (": " ++ toString y).toList := by
    obtain ⟨tl⟩ := toString y
    rfl
  simp only [List.any_append, List.any_cons, List.any_nil, hsplit, pyIn_of_append,
    Bool.true_or, Bool.or_true]

/-- C2.  For a video with an exact date whose best-scoring candidate lies
on that same date, when several candidates share that date the matcher
re-ranks the same-day candidates by title similarity of the normalized
titles and replaces the nominal best with the same-day candidate of
highest title similarity — provided that candidate's similarity exceeds
the 0.4 floor.  The returned candidate is proven to be a same-day
candidate attaining the maximal title similarity. -/
theorem C2_same_day_rerank (v : Video) (events : List Event) (y : Int)
    (hy : v.exact_date = some y)
    (best : AMatch) (srest : List AMatch)
    (hsorted : scoreAll v events = best :: srest)
    (hbestday : best.event.date = some y)
    (s : AMatch) (ss : List AMatch)
    (hsd : (best :: srest).filter (fun m =>
        match m.event.date, v.exact_date with
        | some d, some yy => decide (d = yy)
        | _, _ => false) = s :: ss)
    (_hmulti : 2 ≤ (s :: ss).length)
    (hfloor : (0.4 : ℚ) <
      titleSimTo v (maxByKey (fun m => titleSimTo v m.event) s ss).event) :
    rerank v (scoreAll v events)
      = (some (maxByKey (fun m => titleSimTo v m.event) s ss),
         (maxByKey (fun m => titleSimTo v m.event) s ss).score) ∧
    maxByKey (fun m => titleSimTo v m.event) s ss ∈ s :: ss ∧
    (∀ m ∈ s :: ss, titleSimTo v m.event ≤
      titleSimTo v (maxByKey (fun m => titleSimTo v m.event) s ss).event) := by
  have hform := scoreAll_head_form v events best srest hsorted
  have hreason := aMatch_exactDate_reason v best.event y hy hbestday
  rw [← hform.1] at hreason
  refine ⟨?_, maxByKey_mem _ s ss, maxByKey_max _ s ss⟩
  rw [hsorted]
  simp only [rerank, hreason, if_true, hsd]
  rw [if_pos hfloor]

/-- C2 witness: the nominal best is `E1` ("abxy", type bonus, score 0.7),
but both candidates share the video's date and `E2` ("abz") has the higher
title similarity (4/7 > 1/2 > 0.4), so the re-ranking pass replaces the
nominal best with `E2`. -/
theorem C2_same_day_rerank_witness :
    rerank ⟨"v", "abcd", "u", some 0, none⟩
        (scoreAll ⟨"v", "abcd", "u", some 0, none⟩
          [⟨"E1", none, "abxy", some 0, "ab", none, []⟩,
           ⟨"E2", none, "abz", some 0, "", none, []⟩])
      = (some (aMatchOf ⟨"v", "abcd", "u", some 0, none⟩
            ⟨"E2", none, "abz", some 0, "", none, []⟩),
         (aMatchOf ⟨"v", "abcd", "u", some 0, none⟩
            ⟨"E2", none, "abz", some 0, "", none, []⟩).score) ∧
    (aMatchOf ⟨"v", "abcd", "u", some 0, none⟩
        ⟨"E1", none, "abxy", some 0, "ab", none, []⟩).score = 0.7 ∧
    (aMatchOf ⟨"v", "abcd", "u", some 0, none⟩
        ⟨"E2", none, "abz", some 0, "", none, []⟩).score = 9/14 := by
  have hs1 : (aMatchOf ⟨"v", "abcd", "u", some 0, none⟩
      ⟨"E1", none, "abxy", some 0, "ab", none, []⟩).score = 0.7 := by
    simp only [aMatchOf, calculate_match_score, dateScoreA]
    rw [show normalize_title "abcd" = "abcd" from by decide]
    rw [show normalize_title "abxy" = "abxy" from by decide]
    rw [show (lowerL "ab".toList).asString = "ab" from by decide]
    norm_num [smRatio, Option.some_orElse,
      show difflibMatches ['a', 'b', 'c', 'd'] ['a', 'b', 'x', 'y'] = 2 from by decide,
      show pyIn ['a', 'b'] ['a', 'b', 'c', 'd'] = true from by decide,
      show ("ab" : String) ≠ "" from by decide,
      show ((0 : Int) - 0).natAbs = 0 from by decide]
  have hs2 : (aMatchOf ⟨"v", "abcd", "u", some 0, none⟩
      ⟨"E2", none, "abz", some 0, "", none, []⟩).score = 9/14 := by
    simp only [aMatchOf, calculate_match_score, dateScoreA]
    rw [show normalize_title "abcd" = "abcd" from by decide]
    rw [show normalize_title "abz" = "abz" from by decide]
    norm_num [smRatio, Option.some_orElse,
      show difflibMatches ['a', 'b', 'c', 'd'] ['a', 'b', 'z'] = 2 from by decide,
      show (lowerL ([] : List Char)).asString = "" from rfl,
      show ((0 : Int) - 0).natAbs = 0 from by decide]
  have hsim1 : titleSimTo ⟨"v", "abcd", "u", some 0, none⟩
      ⟨"E1", none, "abxy", some 0, "ab", none, []⟩ = 1/2 := by
    simp only [titleSimTo]
    rw [show normalize_title "abcd" = "abcd" from by decide]
    rw [show normalize_title "abxy" = "abxy" from by decide]
    norm_num [smRatio,
      show difflibMatches ['a', 'b', 'c', 'd'] ['a', 'b', 'x', 'y'] = 2 from by decide]
  have hsim2 : titleSimTo ⟨"v", "abcd", "u", some 0, none⟩
      ⟨"E2", none, "abz", some 0, "", none, []⟩ = 4/7 := by
    simp only [titleSimTo]
    rw [show normalize_title "abcd" = "abcd" from by decide]
    rw [show normalize_title "abz" = "abz" from by decide]
    norm_num [smRatio,
      show difflibMatches ['a', 'b', 'c', 'd'] ['a', 'b', 'z'] = 2 from by decide]
  have hsorted : scoreAll ⟨"v", "abcd", "u", some 0, none⟩
      [⟨"E1", none, "abxy", some 0, "ab", none, []⟩,
       ⟨"E2", none, "abz", some 0, "", none, []⟩]
      = [aMatchOf ⟨"v", "abcd", "u", some 0, none⟩
          ⟨"E1", none, "abxy", some 0, "ab", none, []⟩,
         aMatchOf ⟨"v", "abcd", "u", some 0, none⟩
          ⟨"E2", none, "abz", some 0, "", none, []⟩] := by
    unfold scoreAll sortByScoreDesc
    simp only [List.map, List.foldr]
    norm_num [insertByScore, hs1, hs2]
  have hmax : maxByKey (fun m => titleSimTo ⟨"v", "abcd", "u", some 0, none⟩ m.event)
      (aMatchOf ⟨"v", "abcd", "u", some 0, none⟩
        ⟨"E1", none, "abxy", some 0, "ab", none, []⟩)
      [aMatchOf ⟨"v", "abcd", "u", some 0, none⟩
        ⟨"E2", none, "abz", some 0, "", none, []⟩]
      = aMatchOf ⟨"v", "abcd", "u", some 0, none⟩
          ⟨"E2", none, "abz", some 0, "", none, []⟩ := by
    simp only [maxByKey,
      show (aMatchOf ⟨"v", "abcd", "u", some 0, none⟩
        ⟨"E1", none, "abxy", some 0, "ab", none, []⟩).event
        = ⟨"E1", none, "abxy", some 0, "ab", none, []⟩ from rfl,
      show (aMatchOf ⟨"v", "abcd", "u", some 0, none⟩
        ⟨"E2", none, "abz", some 0, "", none, []⟩).event
        = ⟨"E2", none, "abz", some 0, "", none, []⟩ from rfl,
      hsim1, hsim2]
    norm_num
  have hfloor : (0.4 : ℚ) < titleSimTo ⟨"v", "abcd", "u", some 0, none⟩
      (maxByKey (fun m => titleSimTo ⟨"v", "abcd", "u", some 0, none⟩ m.event)
        (aMatchOf ⟨"v", "abcd", "u", some 0, none⟩
          ⟨"E1", none, "abxy", some 0, "ab", none, []⟩)
        [aMatchOf ⟨"v", "abcd", "u", some 0, none⟩
          ⟨"E2", none, "abz", some 0, "", none, []⟩]).event := by
    rw [hmax]
    rw [show (aMatchOf ⟨"v", "abcd", "u", some 0, none⟩
      ⟨"E2", none, "abz", some 0, "", none, []⟩).event
      = ⟨"E2", none, "abz", some 0, "", none, []⟩ from rfl, hsim2]
    norm_num
  have h := C2_same_day_rerank ⟨"v", "abcd", "u", some 0, none⟩
    [⟨"E1", none, "abxy", some 0, "ab", none, []⟩,
     ⟨"E2", none, "abz", some 0, "", none, []⟩] 0 rfl
    (aMatchOf ⟨"v", "abcd", "u", some 0, none⟩
      ⟨"E1", none, "abxy", some 0, "ab", none, []⟩)
    [aMatchOf ⟨"v", "abcd", "u", some 0, none⟩
      ⟨"E2", none, "abz", some 0, "", none, []⟩]
    hsorted rfl
    (aMatchOf ⟨"v", "abcd", "u", some 0, none⟩
      ⟨"E1", none, "abxy", some 0, "ab", none, []⟩)
    [aMatchOf ⟨"v", "abcd", "u", some 0, none⟩
      ⟨"E2", none, "abz", some 0, "", none, []⟩]
    rfl (by norm_num) hfloor
  rw [hmax] at h
  exact ⟨h.1, hs1, hs2⟩
